import Mathlib

/-!
# ruok scheduler: configuration and job store

A shallow embedding of `pkg/config/config.go` and `pkg/storage/getClaimedJobs.go`,
together with the parts of the Go standard library (`os.Getenv`, `path`, `strconv`, `time`)
and of the SQL store that those files rely on, and a model of `WriteDone`, which
`pkg/storage/writeDone_test.go` exercises, after its description in the specification.

Conventions.
* Go `int`, `int64` and `time.Duration` are `Int`; where the Go code can overflow the
  result is wrapped explicitly by `wrapInt64`.
* Process-wide mutable state (`globalConfigs`) is passed explicitly: a function that
  reads or writes it takes the current value and returns the new one.
* Everything the process observes from outside (environment variables, the file system,
  the file name reported by `runtime.Caller`) is collected in `World`.
* A Go panic is the `panicked` outcome of `Outcome`.
-/

set_option autoImplicit false

/-! ## Machine integers -/

/-- Two's-complement wrap-around of an integer to a signed 64-bit value. -/
def wrapInt64 (x : Int) : Int := Int.bmod x (2 ^ 64)

/-- The values of a Go `int64`. -/
def IsInt64 (x : Int) : Prop := -(2 ^ 63) ≤ x ∧ x < 2 ^ 63

instance (x : Int) : Decidable (IsInt64 x) := by
  unfold IsInt64; exact inferInstance

/-- Result of running Go code that may panic. -/
inductive Outcome (α : Type) where
  | panicked : Outcome α
  | returned (v : α) : Outcome α
  deriving DecidableEq, Repr

/-! ## The outside world -/

/-- What the process can observe from its surroundings. -/
structure World where
  /-- The process environment, as `key = value` pairs; the first pair for a key wins. -/
  environ : List (String × String)
  /-- Whether `os.ReadDir dir` succeeds. -/
  readDirOk : String → Bool
  /-- The file name `runtime.Caller(0)` reports inside `config.go`. -/
  callerFile : String

namespace os

/-- Go `os.Getenv`: the value of the variable, or the empty string when it is not set. -/
def Getenv (w : World) (key : String) : String :=
  match w.environ.lookup key with
  | some v => v
  | none => ""

end os

/-! ## Go `path` -/

namespace path

/-- The backtracking step of `Clean` on the reversed output buffer:
`out.w--; for out.w > dotdot && out.index(out.w) != '/' { out.w-- }`. -/
def backtrack (dotdot : Nat) : List Char → List Char
  | [] => []
  | c :: tl => if dotdot < tl.length ∧ c ≠ '/' then backtrack dotdot tl else tl

/-- The main loop of `Clean`. `rest` is `path[r:]`, `out` is the output buffer in reverse
order (so `out.length` is `out.w`), and `fuel` bounds the number of iterations; every
iteration consumes at least one byte of `rest`, so `rest.length` iterations suffice. -/
def cleanLoop (rooted : Bool) : Nat → List Char → List Char → Nat → List Char
  | 0, _, out, _ => out
  | fuel + 1, rest, out, dotdot =>
    match rest with
    | [] => out
    | c :: tl =>
      if c = '/' then
        -- empty path element
        cleanLoop rooted fuel tl out dotdot
      else if c = '.' ∧ (tl.isEmpty ∨ tl.head? = some '/') then
        -- . element
        cleanLoop rooted fuel tl out dotdot
      else if c = '.' ∧ tl.head? = some '.' ∧
          (tl.tail.isEmpty ∨ tl.tail.head? = some '/') then
        -- .. element: remove to last /
        if dotdot < out.length then
          cleanLoop rooted fuel tl.tail (backtrack dotdot out) dotdot
        else if !rooted then
          let out1 := if 0 < out.length then '/' :: out else out
          let out2 := '.' :: '.' :: out1
          cleanLoop rooted fuel tl.tail out2 out2.length
        else
          cleanLoop rooted fuel tl.tail out dotdot
      else
        -- real path element: add slash if needed, then copy the element
        let out1 :=
          if (rooted ∧ out.length ≠ 1) ∨ (!rooted ∧ out.length ≠ 0) then '/' :: out else out
        let elem := rest.takeWhile (fun x => x ≠ '/')
        cleanLoop rooted fuel (rest.dropWhile (fun x => x ≠ '/')) (elem.reverse ++ out1) dotdot

/-- Go `path.Clean`. -/
def Clean (p : String) : String :=
  if p = "" then "."
  else
    let cs := p.data
    let rooted : Bool := cs.head? = some '/'
    let out := if rooted then cleanLoop true cs.length cs.tail ['/'] 1
               else cleanLoop false cs.length cs [] 0
    if out.length = 0 then "." else String.mk out.reverse

/-- Everything up to and including the last slash: the `dir` result of Go `path.Split`. -/
def splitDir (cs : List Char) : List Char :=
  (cs.reverse.dropWhile (fun x => x ≠ '/')).reverse

/-- Go `path.Dir`. -/
def Dir (p : String) : String := Clean (String.mk (splitDir p.data))

/-- The buffer `Join` builds before cleaning it: the non-empty-so-far elements separated
by slashes. -/
def joinBuf : List String → String → String
  | [], buf => buf
  | e :: es, buf =>
    if 0 < buf.length ∨ e ≠ "" then
      joinBuf es ((if 0 < buf.length then buf ++ "/" else buf) ++ e)
    else joinBuf es buf

/-- Go `path.Join`. -/
def Join (elem : List String) : String :=
  if (elem.map String.length).sum = 0 then "" else Clean (joinBuf elem "")

end path

/-! ## Go `strconv` -/

namespace strconv

/-- The value of a string of decimal digits, or `none` when the string is empty or
contains another character. -/
def parseDigits : List Char → Nat → Option Nat
  | [], _ => none
  | [c], acc => if c.isDigit then some (acc * 10 + (c.toNat - '0'.toNat)) else none
  | c :: d :: tl, acc =>
    if c.isDigit then parseDigits (d :: tl) (acc * 10 + (c.toNat - '0'.toNat)) else none

/-- Go `strconv.ParseInt(s, 10, 64)`, keeping only what its callers in `config.go` look at:
`some n` when the call returns `n` with a nil error, `none` when it returns an error
(a syntax error, or a range error for a value outside `int64`). -/
def ParseInt (s : String) : Option Int :=
  match s.data with
  | [] => none
  | c :: tl =>
    let neg := c = '-'
    let digits := if c = '+' ∨ c = '-' then tl else c :: tl
    match parseDigits digits 0 with
    | none => none
    | some un =>
      if ¬ neg ∧ 2 ^ 63 ≤ un then none
      else if neg ∧ 2 ^ 63 < un then none
      else some (if neg then -(un : Int) else (un : Int))

end strconv

/-! ## Go `time` -/

namespace time

/-- A `time.Duration`: a number of nanoseconds. -/
abbrev Duration := Int

def Second : Duration := 1000000000
def Minute : Duration := 60 * Second

/-- The `*Location` of a `Time`: the nil pointer, `time.Local` or `time.UTC`. -/
inductive Location where
  | nil
  | Local
  | UTC
  deriving DecidableEq, Repr

/-- Go `time.Time`: `wall` is a `uint64`, `ext` an `int64`. -/
structure Time where
  wall : Nat
  ext : Int
  loc : Location
  deriving DecidableEq, Repr

def hasMonotonic : Nat := 2 ^ 63
def nsecMask : Nat := 2 ^ 30 - 1
def nsecShift : Nat := 30

/-- Seconds from the internal epoch (year 1) to the Unix epoch. -/
def unixToInternal : Int := (1969 * 365 + 1969 / 4 - 1969 / 100 + 1969 / 400) * 86400
def internalToUnix : Int := -unixToInternal
def wallToInternal : Int := (1884 * 365 + 1884 / 4 - 1884 / 100 + 1884 / 400) * 86400

/-- The zero value of `time.Time`: January 1, year 1, 00:00:00 UTC. -/
def zeroTime : Time := { wall := 0, ext := 0, loc := Location.nil }

/-- Go `t.nsec()`: the nanoseconds within the second. -/
def Time.nsec (t : Time) : Int := ((t.wall &&& nsecMask : Nat) : Int)

/-- Go `t.sec()`: seconds since the internal epoch. -/
def Time.sec (t : Time) : Int :=
  if t.wall &&& hasMonotonic ≠ 0 then
    wrapInt64
      (wallToInternal + (((((t.wall <<< 1) % 2 ^ 64) >>> (nsecShift + 1)) : Nat) : Int))
  else t.ext

/-- Go `t.unixSec()`. -/
def Time.unixSec (t : Time) : Int := wrapInt64 (t.sec + internalToUnix)

/-- Go `t.IsZero()`. -/
def Time.IsZero (t : Time) : Bool := t.sec = 0 ∧ t.nsec = 0

/-- Go `t.UnixMicro()`: `t.unixSec()*1e6 + int64(t.nsec())/1e3` in `int64` arithmetic. -/
def Time.UnixMicro (t : Time) : Int :=
  wrapInt64 (wrapInt64 (t.unixSec * 1000000) + (t.nsec).tdiv 1000)

/-- Go `unixTime(sec, nsec)`, where `nsec` is an `int32` converted to `uint64`. -/
def unixTime (sec : Int) (nsec : Int) : Time :=
  { wall := (nsec % 2 ^ 64).toNat, ext := wrapInt64 (sec + unixToInternal), loc := Location.Local }

/-- Go `time.Unix(sec, nsec)`; the last argument of `unixTime` is `int32(nsec)`. -/
def Unix (sec : Int) (nsec : Int) : Time :=
  if nsec < 0 ∨ nsec ≥ 1000000000 then
    let n := nsec.tdiv 1000000000
    let sec := wrapInt64 (sec + n)
    let nsec := wrapInt64 (nsec - wrapInt64 (n * 1000000000))
    if nsec < 0 then
      unixTime (wrapInt64 (sec - 1)) (Int.bmod (wrapInt64 (nsec + 1000000000)) (2 ^ 32))
    else unixTime sec (Int.bmod nsec (2 ^ 32))
  else unixTime sec (Int.bmod nsec (2 ^ 32))

/-- Go `time.Now()`, as a function of what the runtime clock `now()` reports (`sec` and
`nsec` since the Unix epoch, and the monotonic reading `mono`) and of `startNano`. -/
def Now (sec nsec mono startNano : Int) : Time :=
  let mono := wrapInt64 (mono - startNano)
  let sec := wrapInt64 (sec + wrapInt64 (unixToInternal - wallToInternal))
  if (sec % 2 ^ 64).toNat >>> 33 ≠ 0 then
    -- the seconds do not fit the 33 bits of a monotonic reading
    { wall := (nsec % 2 ^ 64).toNat, ext := wrapInt64 (sec + wallToInternal),
      loc := Location.Local }
  else
    { wall := hasMonotonic ||| (((sec % 2 ^ 64).toNat <<< nsecShift) % 2 ^ 64)
        ||| (nsec % 2 ^ 64).toNat,
      ext := mono, loc := Location.Local }

/-- The readings the runtime clock can report for which the Unix time in microseconds is
an `int64`: whole seconds `sec` since the Unix epoch and `nsec` nanoseconds within the
second. -/
def IsClockReading (sec nsec : Int) : Prop :=
  -9223372036854 ≤ sec ∧ sec ≤ 9223372036853 ∧ 0 ≤ nsec ∧ nsec < 1000000000

/-- Go `time.UnixMicro(usec)`: `Unix(usec/1e6, (usec%1e6)*1e3)`, with Go's truncating
division and remainder. -/
def UnixMicro (usec : Int) : Time :=
  Unix (usec.tdiv 1000000) (wrapInt64 (usec.tmod 1000000 * 1000))

end time

/-! ## `pkg/config` -/

namespace config

-- SSL file names
def CA_CERT_FILE : String := "/ca-cert.pem"
def CLIENT_CERT_FILE : String := "/client-cert.pem"
def CLIENT_KEY_FILE : String := "/client-key.pem"

-- SSL modes
def DISABLE_SSL : String := "disable"
def REQUIRE_SSL : String := "require"

-- Environment variable names
def DB_SSLMode : String := "DB_SSLMode"
def DB_SSL_PASS : String := "DB_SSL_PASS"
def STORAGE_KIND : String := "STORAGE_KIND"
def DB_PROTOCOL : String := "DB_PROTOCOL"
def DB_PASS : String := "DB_PASS"
def DB_USER : String := "DB_USER"
def DB_HOST : String := "DB_HOST"
def DB_PORT : String := "DB_PORT"
def DB_NAME : String := "DB_NAME"
def APP_NAME : String := "APP_NAME"
def POLL_INTERVAL_SECONDS : String := "POLL_INTERVAL_SECONDS"
def MAX_JOBS : String := "MAX_JOBS"

-- Defaults
def defaultMaxJobs : Int := 10000
def defaultPollInterval : time.Duration := time.Minute
def defaultKind : String := "postgres"
def defaultProtocol : String := "postgresql"
def defaultPass : String := "password"
def defaultUser : String := "user"
def defaultHost : String := "localhost"
def defaultPort : String := "5432"
def defaultDbname : String := "db1"
def defaultAppName : String := "application1"
def defaultBaseDir : String := "/app"
def defaultSSLMode : String := DISABLE_SSL
def defaultSSLPass : String := "clientpass"

structure SSLConfig where
  SSLMode : String
  CACertPath : String := ""
  SSLCertPath : String := ""
  SSLKeyPath : String := ""
  SSLPassword : String := ""
  deriving DecidableEq, Repr

structure Configs where
  Kind : String
  Protocol : String
  Pass : String
  User : String
  Host : String
  Port : String
  Dbname : String
  SSLConfigs : SSLConfig
  AppName : String
  MaxJobs : Int
  PollInterval : time.Duration
  deriving DecidableEq, Repr

/-- The package variable `globalConfigs`: `none` is the nil pointer. -/
abbrev GlobalConfigs := Option Configs

/-- The function `parseMaxJobs`. It ignores its argument and writes through `globalConfigs`, which
panics (nil pointer dereference) when the record has not been created yet. -/
def parseMaxJobs (w : World) (_cfg : Configs) (g : GlobalConfigs) : Outcome GlobalConfigs :=
  match g with
  | none => Outcome.panicked
  | some gc =>
    match strconv.ParseInt (os.Getenv w MAX_JOBS) with
    | none => Outcome.returned (some { gc with MaxJobs := defaultMaxJobs })
    | some maxJobs => Outcome.returned (some { gc with MaxJobs := maxJobs })

/-- The function `ParsePollInterval`. Like `parseMaxJobs` it writes through `globalConfigs`. -/
def ParsePollInterval (w : World) (_cfg : Configs) (g : GlobalConfigs) :
    Outcome GlobalConfigs :=
  match g with
  | none => Outcome.panicked
  | some gc =>
    match strconv.ParseInt (os.Getenv w POLL_INTERVAL_SECONDS) with
    | none => Outcome.returned (some { gc with PollInterval := defaultPollInterval })
    | some interval =>
      Outcome.returned (some { gc with PollInterval := wrapInt64 (time.Second * interval) })

def getEnvOrDefault (w : World) (env : String) (defaultValue : String) : String :=
  if os.Getenv w env ≠ "" then os.Getenv w env else defaultValue

def withinContainer (w : World) (base : String) : Bool := w.readDirOk base

def generateLocalBasePath (w : World) : String :=
  let currentFile := w.callerFile
  let base := path.Dir currentFile
  let base := path.Join [base, "..", "..", "ssl"]
  path.Clean base

def getSSLConfigs (w : World) : SSLConfig :=
  let base := defaultBaseDir
  let tlsConfigs : SSLConfig := { SSLMode := getEnvOrDefault w DB_SSLMode defaultSSLMode }
  if tlsConfigs.SSLMode = DISABLE_SSL then tlsConfigs
  else
    let base := if !withinContainer w base then generateLocalBasePath w else base
    { tlsConfigs with
      CACertPath := base ++ CA_CERT_FILE
      SSLCertPath := base ++ CLIENT_CERT_FILE
      SSLKeyPath := base ++ CLIENT_KEY_FILE
      SSLPassword := getEnvOrDefault w DB_SSL_PASS defaultSSLPass }

/-- The function `FromEnvs`: the returned record and the new value of `globalConfigs`. -/
def FromEnvs (w : World) (g : GlobalConfigs) : Configs × GlobalConfigs :=
  match g with
  | none =>
    let c : Configs :=
      { Kind := getEnvOrDefault w STORAGE_KIND defaultKind
        Protocol := getEnvOrDefault w DB_PROTOCOL defaultProtocol
        Pass := getEnvOrDefault w DB_PASS defaultPass
        User := getEnvOrDefault w DB_USER defaultUser
        Host := getEnvOrDefault w DB_HOST defaultHost
        Port := getEnvOrDefault w DB_PORT defaultPort
        Dbname := getEnvOrDefault w DB_NAME defaultDbname
        AppName := getEnvOrDefault w APP_NAME defaultAppName
        SSLConfigs := getSSLConfigs w
        MaxJobs := defaultMaxJobs
        PollInterval := defaultPollInterval }
    (c, some c)
  | some c => (c, some c)

def MaxJobs (w : World) (g : GlobalConfigs) : Int × GlobalConfigs :=
  match g with
  | none => ((FromEnvs w g).1.MaxJobs, (FromEnvs w g).2)
  | some c => (c.MaxJobs, g)

def AppName (w : World) (g : GlobalConfigs) : String × GlobalConfigs :=
  match g with
  | none => ((FromEnvs w g).1.AppName, (FromEnvs w g).2)
  | some c => (c.AppName, g)

def PollingInterval (w : World) (g : GlobalConfigs) : time.Duration × GlobalConfigs :=
  match g with
  | none => ((FromEnvs w g).1.PollInterval, (FromEnvs w g).2)
  | some c => (c.PollInterval, g)

end config

/-! ## `database/sql` null wrappers -/

namespace sql

structure NullInt64 where
  Int64 : Int
  Valid : Bool
  deriving DecidableEq, Repr

structure NullInt32 where
  Int32 : Int
  Valid : Bool
  deriving DecidableEq, Repr

structure NullString where
  String : String
  Valid : Bool
  deriving DecidableEq, Repr

/-- Scanning a nullable integer column into a `sql.NullInt64`: NULL leaves the zero value. -/
def scanNullInt64 : Option Int → NullInt64
  | none => { Int64 := 0, Valid := false }
  | some v => { Int64 := v, Valid := true }

/-- Scanning a nullable integer column into a `sql.NullInt32`. -/
def scanNullInt32 : Option Int → NullInt32
  | none => { Int32 := 0, Valid := false }
  | some v => { Int32 := v, Valid := true }

/-- Scanning a nullable text column into a `sql.NullString`. -/
def scanNullString : Option String → NullString
  | none => { String := "", Valid := false }
  | some v => { String := v, Valid := true }

end sql

/-! ## `pkg/job`: the in-memory job handle -/

namespace job

/-- Modelled from the spec: the declaration of `job.Header` is not among the source files;
the spec describes the headers as an ordered list of `{name, value}` pairs. -/
structure Header where
  name : String
  value : String
  deriving DecidableEq, Repr

/-- The empty struct literal `job.Handlers{}`. -/
structure Handlers where
  deriving DecidableEq, Repr

/-- The fields of `job.Job` that `getClaimedJobs.go` and `writeDone_test.go` use. -/
structure Job where
  Id : Int
  CronExpString : String
  Endpoint : String
  HttpMethod : String
  MaxRetries : Int
  LastExecution : time.Time
  ShouldExecuteAt : time.Time
  LastResponseAt : time.Time
  LastMessage : String
  Headers : List Header
  LastStatusCode : Int
  SuccessStatuses : List Int
  ClaimedBy : String
  Handlers : Handlers
  Status : String := ""
  TLSClientCert : String := ""
  deriving DecidableEq, Repr

end job

/-! ## `pkg/storage` -/

namespace storage

/-- A row of the `jobs` table. The columns that `GetClaimedJobs` scans into plain Go
values are not nullable; the others are `none` when NULL. -/
structure JobRow where
  id : Int
  cron_exp_string : String
  endpoint : String
  httpmethod : String
  max_retries : Int
  last_execution : Option Int
  should_execute_at : Option Int
  last_response_at : Option Int
  last_message : Option String
  last_status_code : Option Int
  headers_string : Option String
  success_statuses : List Int
  status : String
  claimed_by : Option String
  deriving DecidableEq, Repr

/-- A row of the `job_results` table, with the columns `writeDone_test.go` selects. -/
structure JobResultRow where
  id : Int
  job_id : Int
  cron_exp_string : String
  endpoint : String
  httpmethod : String
  max_retries : Int
  execution_time : Int
  should_execute_at : Int
  last_response_at : Int
  last_message : Option String
  last_status_code : Int
  success_statuses : List Int
  claimed_by : String
  deriving DecidableEq, Repr

/-- The committed contents of the database. -/
structure Store where
  jobs : List JobRow
  job_results : List JobResultRow
  deriving DecidableEq, Repr

/-- Which steps of a database interaction fail (connection loss and the like). -/
structure Faults where
  beginFails : Bool
  queryFails : Bool
  commitFails : Bool
  deriving DecidableEq, Repr

/-- No step fails. -/
def noFaults : Faults := { beginFails := false, queryFails := false, commitFails := false }

/-- An open transaction: its private view of the tables. -/
structure Tx where
  jobs : List JobRow
  job_results : List JobResultRow
  deriving DecidableEq, Repr

/-- The call `Db.Begin(ctx)`: `none` stands for the result `(nil, err)`, that is an error and a nil
`pgx.Tx` interface value. -/
def Begin (f : Faults) (s : Store) : Option Tx :=
  if f.beginFails then none else some { jobs := s.jobs, job_results := s.job_results }

/-- The call `tx.Commit(ctx)`: `none` stands for an error, which leaves the store as it was. -/
def Commit (f : Faults) (tx : Tx) : Option Store :=
  if f.commitFails then none else some { jobs := tx.jobs, job_results := tx.job_results }

/-- The rows `WHERE claimed_by = $1 LIMIT $2 OFFSET $3` selects from a table. -/
def selectClaimed (jobs : List JobRow) (claimedBy : String) (limit offset : Nat) :
    List JobRow :=
  ((jobs.filter (fun r => r.claimed_by = some claimedBy)).drop offset).take limit

/-- The SQL of `GetClaimedJobs`:
`SELECT ... FROM jobs WHERE claimed_by = $1 LIMIT $2 OFFSET $3`.
Rows come in table order; a NULL `claimed_by` matches nothing; the database rejects a
negative LIMIT or OFFSET. `none` stands for a failed query: whether the driver reports the
failure from `Query` or, the transaction being aborted, from the `Commit` that follows,
`GetClaimedJobs` returns nil. -/
def queryClaimed (f : Faults) (tx : Tx) (claimedBy : String) (limit offset : Int) :
    Option (List JobRow) :=
  if f.queryFails ∨ limit < 0 ∨ offset < 0 then none
  else some (selectClaimed tx.jobs claimedBy limit.toNat offset.toNat)

/-- The body of the `rows.Next()` loop of `GetClaimedJobs` for one row: scan the columns,
decode the headers, build the handle. `unmarshal` is `json.Unmarshal` into the empty header
slice: the slice as it is after the call, whether or not the call reported an error. -/
def scanJob (unmarshal : String → List job.Header) (r : JobRow) (appName : String) : job.Job :=
  let LastExecution := sql.scanNullInt64 r.last_execution
  let ShouldExecuteAt := sql.scanNullInt64 r.should_execute_at
  let LastResponseAt := sql.scanNullInt64 r.last_response_at
  let LastMessage := sql.scanNullString r.last_message
  let LastStatusCode := sql.scanNullInt32 r.last_status_code
  let HeadersString := sql.scanNullString r.headers_string
  let Headers : List job.Header :=
    if HeadersString.Valid ∧ HeadersString.String ≠ "" then unmarshal HeadersString.String
    else []
  { Id := r.id
    CronExpString := r.cron_exp_string
    Endpoint := r.endpoint
    HttpMethod := r.httpmethod
    MaxRetries := r.max_retries
    LastExecution := time.UnixMicro LastExecution.Int64
    ShouldExecuteAt := time.UnixMicro ShouldExecuteAt.Int64
    LastResponseAt := time.UnixMicro LastResponseAt.Int64
    LastMessage := LastMessage.String
    Headers := Headers
    LastStatusCode := LastStatusCode.Int32
    SuccessStatuses := r.success_statuses
    ClaimedBy := appName
    Handlers := {} }

/-- The `rows.Next()` loop: every iteration calls `config.AppName()` and appends a handle. -/
def scanRows (w : World) (unmarshal : String → List job.Header) :
    List JobRow → config.GlobalConfigs → List job.Job → List job.Job × config.GlobalConfigs
  | [], g, jobsList => (jobsList, g)
  | r :: rows, g, jobsList =>
    let app := config.AppName w g
    scanRows w unmarshal rows app.2 (jobsList ++ [scanJob unmarshal r app.1])

/-- The method `GetClaimedJobs(limit, offset)`: the outcome (`none` is the nil slice), the store and
`globalConfigs` afterwards.

`defer tx.Rollback(ctx)` runs before the error of `Begin` is looked at; when `Begin` has
failed `tx` is a nil interface value and calling a method on it panics. The deferred
rollback is without effect after a commit and discards the transaction otherwise. -/
def GetClaimedJobs (w : World) (f : Faults) (unmarshal : String → List job.Header)
    (s : Store) (g : config.GlobalConfigs) (limit offset : Int) :
    Outcome (Option (List job.Job)) × Store × config.GlobalConfigs :=
  match Begin f s with
  | none => (Outcome.panicked, s, g)
  | some tx =>
    let app := config.AppName w g
    match queryClaimed f tx app.1 limit offset with
    | none => (Outcome.returned none, s, app.2)
    | some rows =>
      let scanned := scanRows w unmarshal rows app.2 []
      match Commit f tx with
      | none => (Outcome.returned none, s, scanned.2)
      | some s1 => (Outcome.returned (some scanned.1), s1, scanned.2)

/-- Which steps of `WriteDone` fail. -/
structure WriteFaults where
  beginFails : Bool
  insertFails : Bool
  updateFails : Bool
  commitFails : Bool
  deriving DecidableEq, Repr

/-- The `job_results` row `WriteDone` inserts for a handle: a copy of the handle's fields,
the instants as Unix microseconds. The row identity is the next serial number. -/
def resultRowOf (nextId : Int) (j : job.Job) : JobResultRow :=
  { id := nextId
    job_id := j.Id
    cron_exp_string := j.CronExpString
    endpoint := j.Endpoint
    httpmethod := j.HttpMethod
    max_retries := j.MaxRetries
    execution_time := j.LastExecution.UnixMicro
    should_execute_at := j.ShouldExecuteAt.UnixMicro
    last_response_at := j.LastResponseAt.UnixMicro
    last_message := some j.LastMessage
    last_status_code := j.LastStatusCode
    success_statuses := j.SuccessStatuses
    claimed_by := j.ClaimedBy }

/-- The `UPDATE jobs ... WHERE id = $1` of `WriteDone`, applied to one row. -/
def markDone (j : job.Job) (r : JobRow) : JobRow :=
  if r.id = j.Id then
    { r with
      last_execution := some j.LastExecution.UnixMicro
      last_response_at := some j.LastResponseAt.UnixMicro
      last_message := some j.LastMessage
      last_status_code := some j.LastStatusCode
      should_execute_at := some j.ShouldExecuteAt.UnixMicro
      status := "available"
      claimed_by := none }
  else r

/-- Modelled from the spec: `WriteDone` is not among the source files (only its test,
`writeDone_test.go`, is). The spec: in a single transaction, insert a `job_results` row
copying the handle's fields and timestamps, then update the `jobs` row setting
`last_execution`, `last_response_at`, `last_message`, `last_status_code`,
`should_execute_at`, `status = 'available'` and `claimed_by = NULL`; timestamps are stored
as signed 64-bit microseconds since the Unix epoch. `none` stands for an error, which
leaves the store as it was; `some s` is success with the committed store `s`. -/
def WriteDone (f : WriteFaults) (s : Store) (j : job.Job) : Option Store :=
  if f.beginFails then none
  else
    let tx : Tx := { jobs := s.jobs, job_results := s.job_results }
    if f.insertFails then none
    else
      let tx1 : Tx :=
        { tx with job_results := tx.job_results ++ [resultRowOf (tx.job_results.length + 1) j] }
      if f.updateFails then none
      else
        let tx2 : Tx := { tx1 with jobs := tx1.jobs.map (markDone j) }
        if f.commitFails then none
        else some { jobs := tx2.jobs, job_results := tx2.job_results }

end storage

/-! ## Vocabulary for paths -/

namespace path

/-- A plain path element: not empty, without a slash, and neither `.` nor `..`. -/
def IsPlainElem (e : List Char) : Prop :=
  e ≠ [] ∧ '/' ∉ e ∧ e ≠ ['.'] ∧ e ≠ ['.', '.']

/-- The rooted path `/e1/e2/.../en` with the given elements. -/
def underRoot : List (List Char) → List Char
  | [] => []
  | e :: es => '/' :: e ++ underRoot es

/-- The loop `cleanLoop` with the fuel `Clean` gives it. -/
def cleanAll (rooted : Bool) (rest out : List Char) (dotdot : Nat) : List Char :=
  cleanLoop rooted rest.length rest out dotdot

/-- The clean rooted path with the given elements: `/` when there is none. -/
def cleanPath : List (List Char) → List Char
  | [] => ['/']
  | e :: es => underRoot (e :: es)

end path

/-! ## Vocabulary of the specification -/

namespace config

/-- A string knob of the specification: `value` is the value of the environment variable
`key` when that variable is set to a non-empty string, and `dflt` when it is unset or
empty. -/
def IsKnob (w : World) (key dflt value : String) : Prop :=
  (∀ v, w.environ.lookup key = some v → v ≠ "" → value = v) ∧
  ((w.environ.lookup key = none ∨ w.environ.lookup key = some "") → value = dflt)

end config

/-! ## Example inputs -/

namespace examples

/-- A development machine: nothing set in the environment, no `/app` directory. -/
def devWorld : World :=
  { environ := []
    readDirOk := fun _ => false
    callerFile := "/repo/pkg/config/config.go" }

/-- A container: `/app` exists, SSL is required, and every knob is set. -/
def containerWorld : World :=
  { environ :=
      [("STORAGE_KIND", "pg"), ("DB_PROTOCOL", "postgres"), ("DB_HOST", "db"),
       ("DB_PORT", "6432"), ("DB_USER", "ruok"), ("DB_PASS", "secret"), ("DB_NAME", "jobs"),
       ("APP_NAME", "worker7"), ("DB_SSLMode", "require"), ("DB_SSL_PASS", "keypass"),
       ("MAX_JOBS", "5"), ("POLL_INTERVAL_SECONDS", "7")]
    readDirOk := fun dir => dir = "/app"
    callerFile := "/src/ruok/pkg/config/config.go" }

/-- A development machine on which SSL is required. -/
def devSSLWorld : World :=
  { environ := [("DB_SSLMode", "require"), ("DB_SSL_PASS", "")]
    readDirOk := fun _ => false
    callerFile := "/repo/pkg/config/config.go" }

/-- A job row as `writeDone_test.go` seeds it, with the given id, status and owner. -/
def seedRow (id : Int) (status : String) (claimedBy : Option String) : storage.JobRow :=
  { id := id
    cron_exp_string := "* * * * *"
    endpoint := "/"
    httpmethod := "GET"
    max_retries := 1
    last_execution := none
    should_execute_at := none
    last_response_at := none
    last_message := none
    last_status_code := none
    headers_string := none
    success_statuses := [200]
    status := status
    claimed_by := claimedBy }

/-- A store in which `application1` still owns a job whose status is `available`. -/
def strandedStore : storage.Store :=
  { jobs := [seedRow 1 "available" (some "application1")], job_results := [] }

/-- A store with jobs of several owners, some with timestamps before 1970. -/
def mixedStore : storage.Store :=
  { jobs :=
      [{ seedRow 1 "claimed" (some "application1") with
          last_execution := some (-1500000), should_execute_at := some 0 },
       seedRow 2 "available" none,
       seedRow 3 "claimed" (some "application2"),
       { seedRow 4 "executing" (some "application1") with
          last_response_at := some 1700000000123456, last_message := some "OK",
          last_status_code := some 200 },
       seedRow 5 "failed" (some "application1")]
    job_results := [] }

/-- A JSON decoder that knows no headers. -/
def noHeaders : String → List job.Header := fun _ => []

/-- A value of `time.Now()`: the clock reads 1793645252.452302123 s after the Unix epoch,
and the monotonic clock 987654321 ns, having read 1000 ns when the process started. -/
def nowReading : time.Time := time.Now 1793645252 452302123 987654321 1000

/-- The handle `writeDone_test.go` builds, for the instant `now`. -/
def makeJobStruct (now : time.Time) : job.Job :=
  { Id := 1
    CronExpString := "* * * * *"
    LastExecution := now
    ShouldExecuteAt := now
    LastResponseAt := now
    Status := "claimed"
    ClaimedBy := "application1"
    LastStatusCode := 200
    LastMessage := "OK"
    HttpMethod := "GET"
    Endpoint := "/"
    SuccessStatuses := [200]
    Headers := []
    MaxRetries := 1
    Handlers := {} }

/-- The store `writeDone_test.go` seeds. -/
def seededStore : storage.Store :=
  { jobs := [seedRow 1 "claimed" (some "application1")], job_results := [] }

end examples

/-! ## Facts about machine integers and `time` -/

theorem wrapInt64_eq (x : Int) :
    wrapInt64 x =
      if x % 18446744073709551616 < 9223372036854775808 then x % 18446744073709551616
      else x % 18446744073709551616 - 18446744073709551616 := by
  unfold wrapInt64
  rw [Int.bmod_def]
  norm_num

theorem wrapInt64_of_isInt64 {x : Int} (h : IsInt64 x) : wrapInt64 x = x := by
  rw [wrapInt64_eq]
  unfold IsInt64 at h
  norm_num at h
  split <;> omega

theorem bmod32_eq (x : Int) :
    Int.bmod x (2 ^ 32) =
      if x % 4294967296 < 2147483648 then x % 4294967296 else x % 4294967296 - 4294967296 := by
  rw [Int.bmod_def]
  norm_num

/-- Truncating division by a positive constant, in terms of flooring division. -/
theorem tdiv_tmod_pos (v c : Int) (hc : 0 < c) :
    (0 ≤ v → v.tdiv c = v / c ∧ v.tmod c = v % c) ∧
    (v < 0 → v.tdiv c = -((-v) / c) ∧ v.tmod c = -((-v) % c)) := by
  constructor
  · intro hv
    exact ⟨Int.tdiv_eq_ediv hv hc.le, Int.tmod_eq_emod hv hc.le⟩
  · intro hv
    have hq : v.tdiv c = -((-v) / c) := by
      have h1 : (-(-v)).tdiv c = -((-v).tdiv c) := Int.neg_tdiv (-v) c
      rw [neg_neg] at h1
      rw [h1, Int.tdiv_eq_ediv (by omega) hc.le]
    refine ⟨hq, ?_⟩
    have h2 := Int.tdiv_add_tmod v c
    have h3 := Int.ediv_add_emod (-v) c
    rw [hq] at h2
    have h4 : c * -(-v / c) = -(c * (-v / c)) := by ring
    rw [h4] at h2
    omega

namespace time

theorem unixToInternal_eq : unixToInternal = 62135596800 := by decide

theorem isInt64_iff (x : Int) :
    IsInt64 x ↔ -9223372036854775808 ≤ x ∧ x < 9223372036854775808 := by
  unfold IsInt64; norm_num

/-- The representation `time.UnixMicro` builds, in terms of flooring division. -/
theorem UnixMicro_eq (v : Int) (hv : IsInt64 v) :
    UnixMicro v =
      { wall := (v % 1000000 * 1000).toNat, ext := v / 1000000 + 62135596800,
        loc := Location.Local } := by
  rw [isInt64_iff] at hv
  obtain ⟨hpos, hneg⟩ := tdiv_tmod_pos v 1000000 (by norm_num)
  have wrap_id : ∀ x : Int, -9223372036854775808 ≤ x → x < 9223372036854775808 →
      wrapInt64 x = x := fun x h1 h2 => wrapInt64_of_isInt64 ((isInt64_iff x).2 ⟨h1, h2⟩)
  have b32 : ∀ x : Int, 0 ≤ x → x < 1000000000 → Int.bmod x (2 ^ 32) = x := by
    intro x h1 h2
    rw [bmod32_eq]; split <;> omega
  have nonneg_case : ∀ q ns : Int, 0 ≤ ns → ns < 1000000000 →
      -9223372036855 ≤ q → q ≤ 9223372036855 →
      Unix q ns = { wall := ns.toNat, ext := q + 62135596800, loc := Location.Local } := by
    intro q ns h1 h2 h3 h4
    unfold Unix
    rw [if_neg (by omega)]
    unfold unixTime
    rw [b32 ns h1 h2, unixToInternal_eq, wrap_id _ (by omega) (by omega)]
    have : ns % 2 ^ 64 = ns := by norm_num; omega
    rw [this]
  rcases le_or_lt 0 v with h0 | h0
  · obtain ⟨hq, hr⟩ := hpos h0
    unfold UnixMicro
    rw [hq, hr, wrap_id _ (by omega) (by omega)]
    exact nonneg_case _ _ (by omega) (by omega) (by omega) (by omega)
  · obtain ⟨hq, hr⟩ := hneg h0
    unfold UnixMicro
    rw [hq, hr, wrap_id _ (by omega) (by omega)]
    rcases eq_or_lt_of_le (Int.emod_nonneg (-v) (by norm_num : (1000000 : Int) ≠ 0)) with hz | hz
    · rw [← hz]
      have e1 : (v % 1000000 * 1000).toNat = ((-(0 : Int)) * 1000).toNat := by
        have : v % 1000000 = 0 := by omega
        rw [this]; rfl
      have e2 : v / 1000000 = -(-v / 1000000) := by omega
      rw [e1, e2]
      exact nonneg_case _ _ (by omega) (by omega) (by omega) (by omega)
    · obtain ⟨_, hn⟩ := tdiv_tmod_pos (-(-v % 1000000) * 1000) 1000000000 (by norm_num)
      have hlt : -(-v % 1000000) * 1000 < 0 := by omega
      have hn1 := (hn hlt).1
      have hzero : (-(-v % 1000000) * 1000).tdiv 1000000000 = 0 := by
        rw [hn1]; omega
      unfold Unix
      rw [if_pos (Or.inl hlt)]
      simp only [hzero, add_zero, zero_mul]
      rw [wrap_id 0 (by omega) (by omega), sub_zero, wrap_id (-(-v / 1000000)) (by omega) (by omega),
        wrap_id (-(-v % 1000000) * 1000) (by omega) (by omega), if_pos hlt,
        wrap_id (-(-v / 1000000) - 1) (by omega) (by omega),
        wrap_id (-(-v % 1000000) * 1000 + 1000000000) (by omega) (by omega),
        b32 _ (by omega) (by omega)]
      unfold unixTime
      rw [unixToInternal_eq, wrap_id _ (by omega) (by omega)]
      have e0 : v % 1000000 = 1000000 - -v % 1000000 := by omega
      have e1 : (-(-v % 1000000) * 1000 + 1000000000) % 2 ^ 64
          = v % 1000000 * 1000 := by
        rw [e0]
        have : (2 : Int) ^ 64 = 18446744073709551616 := by norm_num
        rw [this, Int.emod_eq_of_lt (by omega) (by omega)]
        ring
      have e2 : -(-v / 1000000) - 1 = v / 1000000 := by omega
      rw [e1, e2]

theorem nsec_mk (w : Nat) (e : Int) (l : Location) (h : w < 2 ^ 30) :
    Time.nsec { wall := w, ext := e, loc := l } = (w : Int) := by
  unfold Time.nsec nsecMask
  simp only
  rw [Nat.and_pow_two_sub_one_of_lt_two_pow h]

theorem sec_mk (w : Nat) (e : Int) (l : Location) (h : w < 2 ^ 63) :
    Time.sec { wall := w, ext := e, loc := l } = e := by
  unfold Time.sec hasMonotonic
  simp only
  rw [Nat.and_two_pow, Nat.testBit_lt_two_pow h]
  simp

theorem UnixMicro_roundtrip (v : Int) (hv : IsInt64 v) : (UnixMicro v).UnixMicro = v := by
  rw [UnixMicro_eq v hv]
  rw [isInt64_iff] at hv
  have hw : (v % 1000000 * 1000).toNat < 2 ^ 30 := by norm_num; omega
  have hw63 : (v % 1000000 * 1000).toNat < 2 ^ 63 := by norm_num; omega
  unfold Time.UnixMicro Time.unixSec
  rw [nsec_mk _ _ _ hw, sec_mk _ _ _ hw63]
  unfold internalToUnix
  rw [unixToInternal_eq]
  have h0 : (((v % 1000000 * 1000).toNat : Nat) : Int) = v % 1000000 * 1000 := by omega
  have h1 : (v % 1000000 * 1000).tdiv 1000 = v % 1000000 := by
    rw [Int.tdiv_eq_ediv (by omega) (by norm_num)]; omega
  rw [h0, h1]
  have h2 : v / 1000000 + 62135596800 + -62135596800 = v / 1000000 := by ring
  rw [h2]
  simp only [wrapInt64_eq]
  split <;> split <;> split <;> omega

theorem wallToInternal_eq : wallToInternal = 59453308800 := by decide

/-- The wall word of a monotonic reading, as a sum. -/
theorem wall_monotonic (s n : Nat) (hs : s < 2 ^ 33) (hn : n < 2 ^ 30) :
    hasMonotonic ||| ((s <<< nsecShift) % 2 ^ 64) ||| n = 2 ^ 63 + 2 ^ 30 * s + n := by
  unfold hasMonotonic nsecShift
  have h1 : (s <<< 30) % 2 ^ 64 = 2 ^ 30 * s := by
    rw [Nat.shiftLeft_eq, Nat.mul_comm]
    apply Nat.mod_eq_of_lt
    norm_num at hs ⊢
    omega
  rw [h1, Nat.or_assoc, ← Nat.mul_add_lt_is_or hn]
  have h2 : 2 ^ 30 * s + n < 2 ^ 63 := by
    norm_num at hs hn ⊢
    omega
  have h3 := Nat.mul_add_lt_is_or h2 1
  rw [Nat.mul_one] at h3
  rw [← h3]
  omega

theorem nsec_monotonic (s n : Nat) (e : Int) (l : Location) (hn : n < 2 ^ 30) :
    Time.nsec { wall := 2 ^ 63 + 2 ^ 30 * s + n, ext := e, loc := l } = (n : Int) := by
  unfold Time.nsec nsecMask
  simp only
  rw [Nat.and_pow_two_sub_one_eq_mod]
  norm_num at hn ⊢
  omega

theorem sec_monotonic (s n : Nat) (e : Int) (l : Location) (hs : s < 2 ^ 33)
    (hn : n < 2 ^ 30) :
    Time.sec { wall := 2 ^ 63 + 2 ^ 30 * s + n, ext := e, loc := l } =
      59453308800 + (s : Int) := by
  unfold Time.sec hasMonotonic nsecShift
  simp only
  have hbit : (2 ^ 63 + 2 ^ 30 * s + n) &&& 2 ^ 63 ≠ 0 := by
    rw [Nat.and_two_pow, Nat.add_assoc, Nat.testBit_two_pow_add_eq,
      Nat.testBit_lt_two_pow (by norm_num at hs hn ⊢; omega)]
    norm_num
  rw [if_pos hbit, Nat.shiftLeft_eq, Nat.shiftRight_eq_div_pow, wallToInternal_eq]
  have hdiv : (2 ^ 63 + 2 ^ 30 * s + n) * 2 ^ 1 % 2 ^ 64 / 2 ^ (30 + 1) = s := by
    norm_num at hs hn ⊢
    omega
  rw [hdiv]
  apply wrapInt64_of_isInt64
  rw [isInt64_iff]
  norm_num at hs
  omega

/-- The Unix microseconds of a reading of the clock, whichever representation `Now`
chooses for it. -/
theorem Now_UnixMicro (sec nsec mono startNano : Int) (h : IsClockReading sec nsec) :
    (Now sec nsec mono startNano).UnixMicro = sec * 1000000 + nsec / 1000 := by
  obtain ⟨h1, h2, h3, h4⟩ := h
  have wrap_id : ∀ x : Int, -9223372036854775808 ≤ x → x < 9223372036854775808 →
      wrapInt64 x = x := fun x a b => wrapInt64_of_isInt64 ((isInt64_iff x).2 ⟨a, b⟩)
  have hnat : (nsec % 2 ^ 64).toNat = nsec.toNat := by
    have : nsec % 2 ^ 64 = nsec := by norm_num; omega
    rw [this]
  have hn30 : nsec.toNat < 2 ^ 30 := by norm_num; omega
  have hn63 : nsec.toNat < 2 ^ 63 := by norm_num; omega
  have htd : ((nsec.toNat : Nat) : Int).tdiv 1000 = nsec / 1000 := by
    rw [Int.tdiv_eq_ediv (by omega) (by norm_num)]
    omega
  unfold Now
  simp only [unixToInternal_eq, wallToInternal_eq, hnat]
  rw [wrap_id (62135596800 - 59453308800) (by norm_num) (by norm_num),
    wrap_id (sec + (62135596800 - 59453308800)) (by omega) (by omega)]
  split_ifs with hov
  · -- plain representation
    unfold Time.UnixMicro Time.unixSec internalToUnix
    rw [nsec_mk _ _ _ hn30, sec_mk _ _ _ hn63, unixToInternal_eq, htd,
      wrap_id (sec + (62135596800 - 59453308800) + 59453308800) (by omega) (by omega),
      wrap_id (sec + (62135596800 - 59453308800) + 59453308800 + -62135596800) (by omega)
        (by omega)]
    have hsec : sec + (62135596800 - 59453308800) + 59453308800 + -62135596800 = sec := by
      omega
    rw [hsec, wrap_id (sec * 1000000) (by omega) (by omega),
      wrap_id (sec * 1000000 + nsec / 1000) (by omega) (by omega)]
  · -- monotonic representation
    have hrange : 0 ≤ sec + (62135596800 - 59453308800) ∧
        sec + (62135596800 - 59453308800) < 8589934592 := by
      rw [Nat.shiftRight_eq_div_pow] at hov
      norm_num at hov
      omega
    have hs : ((sec + (62135596800 - 59453308800)) % 2 ^ 64).toNat
        = (sec + 2682288000).toNat := by
      have : (sec + (62135596800 - 59453308800)) % 2 ^ 64 = sec + 2682288000 := by
        norm_num; omega
      rw [this]
    have hs33 : (sec + 2682288000).toNat < 2 ^ 33 := by norm_num; omega
    rw [hs, wall_monotonic _ _ hs33 hn30]
    unfold Time.UnixMicro Time.unixSec internalToUnix
    rw [nsec_monotonic _ _ _ _ hn30, sec_monotonic _ _ _ _ hs33 hn30, unixToInternal_eq, htd]
    have hc : (((sec + 2682288000).toNat : Nat) : Int) = sec + 2682288000 := by omega
    rw [hc, wrap_id (59453308800 + (sec + 2682288000) + -62135596800) (by omega) (by omega)]
    have hsec : 59453308800 + (sec + 2682288000) + -62135596800 = sec := by omega
    rw [hsec, wrap_id (sec * 1000000) (by omega) (by omega),
      wrap_id (sec * 1000000 + nsec / 1000) (by omega) (by omega)]

end time

/-! ## Facts about `path.Clean` -/

namespace path

theorem dropWhile_length_le (p : Char → Bool) (l : List Char) :
    (l.dropWhile p).length ≤ l.length := by
  induction l with
  | nil => simp
  | cons a l ih =>
    simp only [List.dropWhile_cons]
    split
    · simp only [List.length_cons]; omega
    · simp

theorem cleanLoop_fuel (rooted : Bool) :
    ∀ (fuel1 fuel2 : Nat) (rest out : List Char) (dotdot : Nat),
      rest.length ≤ fuel1 → rest.length ≤ fuel2 →
      cleanLoop rooted fuel1 rest out dotdot = cleanLoop rooted fuel2 rest out dotdot := by
  intro fuel1
  induction fuel1 with
  | zero =>
    intro fuel2 rest out dotdot h1 _
    have : rest = [] := List.length_eq_zero.1 (Nat.le_zero.1 h1)
    subst this
    cases fuel2 <;> simp [cleanLoop]
  | succ n ih =>
    intro fuel2 rest out dotdot h1 h2
    cases fuel2 with
    | zero =>
      have : rest = [] := List.length_eq_zero.1 (Nat.le_zero.1 h2)
      subst this
      simp [cleanLoop]
    | succ m =>
      cases rest with
      | nil => simp [cleanLoop]
      | cons c tl =>
        simp only [List.length_cons, Nat.add_le_add_iff_right] at h1 h2
        have htt : tl.tail.length ≤ tl.length := by simp
        have hd : ¬ c = '/' →
            ((c :: tl).dropWhile (fun x => decide (x ≠ '/'))).length ≤ tl.length := by
          intro hc
          simp only [List.dropWhile_cons, hc, ne_eq, not_false_eq_true, decide_True, if_true]
          exact dropWhile_length_le _ _
        unfold cleanLoop
        simp only
        split_ifs <;> first
          | exact ih m _ _ _ h1 h2
          | exact ih m _ _ _ (by omega) (by omega)
          | exact ih m _ _ _ (le_trans (hd ‹_›) h1) (le_trans (hd ‹_›) h2)

theorem cleanLoop_succ_cons (rooted : Bool) (fuel : Nat) (c : Char) (tl out : List Char)
    (dotdot : Nat) :
    cleanLoop rooted (fuel + 1) (c :: tl) out dotdot =
      if c = '/' then cleanLoop rooted fuel tl out dotdot
      else if c = '.' ∧ (tl.isEmpty ∨ tl.head? = some '/') then
        cleanLoop rooted fuel tl out dotdot
      else if c = '.' ∧ tl.head? = some '.' ∧
          (tl.tail.isEmpty ∨ tl.tail.head? = some '/') then
        if dotdot < out.length then
          cleanLoop rooted fuel tl.tail (backtrack dotdot out) dotdot
        else if !rooted then
          cleanLoop rooted fuel tl.tail
            ('.' :: '.' :: (if 0 < out.length then '/' :: out else out))
            ('.' :: '.' :: (if 0 < out.length then '/' :: out else out)).length
        else
          cleanLoop rooted fuel tl.tail out dotdot
      else
        cleanLoop rooted fuel ((c :: tl).dropWhile (fun x => x ≠ '/'))
          (((c :: tl).takeWhile (fun x => x ≠ '/')).reverse ++
            (if (rooted ∧ out.length ≠ 1) ∨ (!rooted ∧ out.length ≠ 0) then '/' :: out
             else out)) dotdot := by
  rw [cleanLoop]

theorem cleanAll_nil (rooted : Bool) (out : List Char) (dotdot : Nat) :
    cleanAll rooted [] out dotdot = out := rfl

theorem cleanAll_slash (rooted : Bool) (rest out : List Char) (dotdot : Nat) :
    cleanAll rooted ('/' :: rest) out dotdot = cleanAll rooted rest out dotdot := by
  unfold cleanAll
  simp [cleanLoop]

theorem takeWhile_elem (e rest : List Char) (he : '/' ∉ e)
    (hb : rest = [] ∨ rest.head? = some '/') :
    (e ++ rest).takeWhile (fun x => decide (x ≠ '/')) = e ∧
    (e ++ rest).dropWhile (fun x => decide (x ≠ '/')) = rest := by
  induction e with
  | nil =>
    rcases hb with hb | hb
    · subst hb; simp
    · cases rest with
      | nil => simp
      | cons c tl =>
        simp only [List.head?_cons, Option.some.injEq] at hb
        subst hb
        simp
  | cons a e ih =>
    have ha : a ≠ '/' := fun h => he (h ▸ List.mem_cons_self _ _)
    have he' : '/' ∉ e := fun h => he (List.mem_cons_of_mem _ h)
    obtain ⟨h1, h2⟩ := ih he'
    refine ⟨?_, ?_⟩
    · rw [List.cons_append, List.takeWhile_cons]
      simp only [ha, ne_eq, not_false_eq_true, decide_True, if_true]
      exact congrArg (a :: ·) h1
    · rw [List.cons_append, List.dropWhile_cons]
      simp only [ha, ne_eq, not_false_eq_true, decide_True, if_true]
      exact h2

theorem cleanAll_elem (e rest out : List Char) (dotdot : Nat) (he : IsPlainElem e)
    (hb : rest = [] ∨ rest.head? = some '/') :
    cleanAll true (e ++ rest) out dotdot =
      cleanAll true rest (e.reverse ++ (if out.length ≠ 1 then '/' :: out else out)) dotdot := by
  obtain ⟨hne, hslash, hdot, hdotdot⟩ := he
  obtain ⟨htw, hdw⟩ := takeWhile_elem e rest hslash hb
  cases e with
  | nil => exact absurd rfl hne
  | cons c e1 =>
    have hc : c ≠ '/' := fun h => hslash (h ▸ List.mem_cons_self _ _)
    have he1 : '/' ∉ e1 := fun h => hslash (List.mem_cons_of_mem _ h)
    -- the element is neither `.` nor `..`
    have n2 : ¬ (c = '.' ∧ ((e1 ++ rest).isEmpty = true ∨ (e1 ++ rest).head? = some '/')) := by
      rintro ⟨rfl, h⟩
      cases e1 with
      | nil => exact hdot rfl
      | cons d e2 =>
        simp only [List.cons_append, List.isEmpty_cons, Bool.false_eq_true, List.head?_cons,
          Option.some.injEq, false_or] at h
        exact he1 (h ▸ List.mem_cons_self _ _)
    have n3 : ¬ (c = '.' ∧ (e1 ++ rest).head? = some '.' ∧
        ((e1 ++ rest).tail.isEmpty = true ∨ (e1 ++ rest).tail.head? = some '/')) := by
      rintro ⟨rfl, h1, h2⟩
      cases e1 with
      | nil =>
        rcases hb with hb | hb
        · subst hb; simp at h1
        · rw [List.nil_append, hb] at h1
          simp at h1
      | cons d e2 =>
        simp only [List.cons_append, List.head?_cons, Option.some.injEq] at h1
        subst h1
        cases e2 with
        | nil => exact hdotdot rfl
        | cons d2 e3 =>
          simp only [List.cons_append, List.tail_cons, List.isEmpty_cons, Bool.false_eq_true,
            List.head?_cons, Option.some.injEq, false_or] at h2
          exact he1 (h2 ▸ List.mem_cons_of_mem _ (List.mem_cons_self _ _))
    unfold cleanAll
    rw [List.cons_append, List.length_cons, cleanLoop_succ_cons]
    simp only [hc, if_false, n2, n3]
    rw [← List.cons_append, htw, hdw]
    simp only [true_and, Bool.not_true, Bool.false_eq_true, false_and, or_false]
    exact cleanLoop_fuel true _ _ _ _ _ (by simp) le_rfl

theorem cleanAll_dotdot (rest out : List Char) (hb : rest = [] ∨ rest.head? = some '/')
    (ho : 1 < out.length) :
    cleanAll true ('.' :: '.' :: rest) out 1 = cleanAll true rest (backtrack 1 out) 1 := by
  have hb' : rest.isEmpty = true ∨ rest.head? = some '/' := by
    rcases hb with hb | hb
    · left; subst hb; rfl
    · right; exact hb
  unfold cleanAll
  rw [List.length_cons, cleanLoop_succ_cons]
  simp only [List.head?_cons, List.tail_cons, hb', ho, if_true]
  simp only [show ¬ ('.' = '/') by decide, if_false, List.isEmpty_cons, Bool.false_eq_true,
    show ¬ ((some '.' : Option Char) = some '/') by decide, or_self, and_false, true_and,
    and_self, if_true]
  exact cleanLoop_fuel true _ _ _ _ _ (by simp) le_rfl

theorem underRoot_append (es fs : List (List Char)) :
    underRoot (es ++ fs) = underRoot es ++ underRoot fs := by
  induction es with
  | nil => rfl
  | cons e es ih => simp [underRoot, ih]

theorem underRoot_boundary (es : List (List Char)) (rest : List Char)
    (hb : rest = [] ∨ rest.head? = some '/') :
    underRoot es ++ rest = [] ∨ (underRoot es ++ rest).head? = some '/' := by
  cases es with
  | nil => simpa [underRoot] using hb
  | cons e es => right; simp [underRoot]

theorem cleanPath_length (es : List (List Char)) (e : List Char) (he : e ≠ []) :
    1 < (cleanPath (es ++ [e])).length := by
  have h : 1 < (underRoot (es ++ [e])).length := by
    rw [underRoot_append]
    have : 0 < e.length := List.length_pos.2 he
    simp [underRoot]
    omega
  cases es with
  | nil => exact h
  | cons a es => exact h

theorem cleanPath_snoc (es : List (List Char)) (e : List Char)
    (hes : ∀ x ∈ es, IsPlainElem x) :
    e.reverse ++ (if (cleanPath es).reverse.length ≠ 1 then '/' :: (cleanPath es).reverse
      else (cleanPath es).reverse) = (cleanPath (es ++ [e])).reverse := by
  cases es with
  | nil => simp [cleanPath, underRoot]
  | cons a es =>
    have ha : a ≠ [] := (hes a (List.mem_cons_self _ _)).1
    have hl : (cleanPath (a :: es)).reverse.length ≠ 1 := by
      have : 0 < a.length := List.length_pos.2 ha
      simp [cleanPath, underRoot]
      omega
    rw [if_pos hl]
    show _ = (underRoot ((a :: es) ++ [e])).reverse
    rw [underRoot_append]
    simp [cleanPath, underRoot]

theorem backtrack_strip (xs out : List Char) (hx : '/' ∉ xs) (hne : xs ≠ [])
    (hout : out.length = 1) : backtrack 1 (xs ++ out) = out := by
  induction xs with
  | nil => exact absurd rfl hne
  | cons c xs ih =>
    have hc : c ≠ '/' := fun h => hx (h ▸ List.mem_cons_self _ _)
    rw [List.cons_append, backtrack]
    cases xs with
    | nil => simp [hout]
    | cons d xs =>
      have hlen : 1 < (d :: xs ++ out).length := by simp; omega
      rw [if_pos ⟨hlen, hc⟩]
      exact ih (fun h => hx (List.mem_cons_of_mem _ h)) (by simp)

theorem backtrack_strip_slash (xs out : List Char) (hx : '/' ∉ xs) (hout : 1 ≤ out.length) :
    backtrack 1 (xs ++ '/' :: out) = out := by
  induction xs with
  | nil => simp [backtrack]
  | cons c xs ih =>
    have hc : c ≠ '/' := fun h => hx (h ▸ List.mem_cons_self _ _)
    rw [List.cons_append, backtrack]
    have hlen : 1 < (xs ++ '/' :: out).length := by simp; omega
    rw [if_pos ⟨hlen, hc⟩]
    exact ih (fun h => hx (List.mem_cons_of_mem _ h))

theorem backtrack_cleanPath (es : List (List Char)) (e : List Char)
    (hes : ∀ x ∈ es, IsPlainElem x) (he : IsPlainElem e) :
    backtrack 1 (cleanPath (es ++ [e])).reverse = (cleanPath es).reverse := by
  rw [← cleanPath_snoc es e hes]
  have hx : '/' ∉ e.reverse := fun h => he.2.1 (List.mem_reverse.1 h)
  have hne : e.reverse ≠ [] := fun h => he.1 (List.reverse_eq_nil_iff.1 h)
  split_ifs with h
  · exact backtrack_strip_slash _ _ hx (by
      have : 0 < (cleanPath es).reverse.length := by
        cases es <;> simp [cleanPath, underRoot]
      omega)
  · exact backtrack_strip _ _ hx hne (not_not.1 h)

/-- Cleaning a run of plain elements appends them to the output. -/
theorem cleanAll_elems (more : List (List Char)) :
    ∀ (es : List (List Char)) (rest : List Char),
      (∀ x ∈ es, IsPlainElem x) → (∀ x ∈ more, IsPlainElem x) →
      (rest = [] ∨ rest.head? = some '/') →
      cleanAll true (underRoot more ++ rest) (cleanPath es).reverse 1 =
        cleanAll true rest (cleanPath (es ++ more)).reverse 1 := by
  induction more with
  | nil => intro es rest _ _ _; simp [underRoot]
  | cons e more ih =>
    intro es rest hes hmore hb
    have he : IsPlainElem e := hmore e (List.mem_cons_self _ _)
    have hmore' : ∀ x ∈ more, IsPlainElem x := fun x hx => hmore x (List.mem_cons_of_mem _ hx)
    have hes' : ∀ x ∈ es ++ [e], IsPlainElem x := by
      intro x hx
      rcases List.mem_append.1 hx with h | h
      · exact hes x h
      · rw [List.mem_singleton.1 h]; exact he
    have e1 : underRoot (e :: more) ++ rest = '/' :: (e ++ (underRoot more ++ rest)) := by
      simp [underRoot]
    have e2 : es ++ e :: more = es ++ [e] ++ more := by simp
    rw [e1, cleanAll_slash, cleanAll_elem e _ _ 1 he (underRoot_boundary more rest hb),
      cleanPath_snoc es e hes, ih (es ++ [e]) rest hes' hmore' hb, e2]

/-- A `..` element after a clean path with at least one element removes the last one. -/
theorem cleanAll_dotdot_cleanPath (es : List (List Char)) (e rest : List Char)
    (hes : ∀ x ∈ es, IsPlainElem x) (he : IsPlainElem e)
    (hb : rest = [] ∨ rest.head? = some '/') :
    cleanAll true ('/' :: '.' :: '.' :: rest) (cleanPath (es ++ [e])).reverse 1 =
      cleanAll true rest (cleanPath es).reverse 1 := by
  rw [cleanAll_slash, cleanAll_dotdot _ _ hb (by
    rw [List.length_reverse]; exact cleanPath_length es e he.1),
    backtrack_cleanPath es e hes he]

theorem mk_ne_empty (a : List Char) (h : a ≠ []) : String.mk a ≠ "" := by
  intro h1
  apply h
  have := congrArg String.data h1
  simpa using this

/-- The result of `Clean` on a rooted path, in terms of the loop. -/
theorem Clean_of_rooted (p : List Char) (hp : p.head? = some '/') :
    Clean (String.mk p) =
      if (cleanAll true p ['/'] 1).length = 0 then "."
      else String.mk (cleanAll true p ['/'] 1).reverse := by
  cases p with
  | nil => simp at hp
  | cons c xs =>
    simp only [List.head?_cons, Option.some.injEq] at hp
    subst hp
    rw [cleanAll_slash]
    unfold Clean
    rw [if_neg (mk_ne_empty _ (by simp))]
    simp only [List.head?_cons, decide_True, if_true, List.tail_cons, List.length_cons]
    rw [cleanLoop_fuel true (xs.length + 1) xs.length xs ['/'] 1 (by omega) le_rfl]
    rfl

/-- A clean rooted path, with or without a trailing slash, cleans to itself. -/
theorem Clean_underRoot (es : List (List Char)) (trail : List Char)
    (hes : ∀ x ∈ es, IsPlainElem x) (hne : es ≠ []) (ht : trail = [] ∨ trail = ['/']) :
    Clean (String.mk (underRoot es ++ trail)) = String.mk (underRoot es) := by
  have hb : trail = [] ∨ trail.head? = some '/' := by
    rcases ht with h | h
    · exact Or.inl h
    · right; rw [h]; rfl
  have hhead : (underRoot es ++ trail).head? = some '/' := by
    cases es with
    | nil => exact absurd rfl hne
    | cons e es => simp [underRoot]
  have hrun := cleanAll_elems es [] trail (by simp) hes hb
  rw [List.nil_append] at hrun
  have htrail : cleanAll true trail (cleanPath es).reverse 1 = (cleanPath es).reverse := by
    rcases ht with h | h
    · rw [h]; rfl
    · rw [h, cleanAll_slash]; rfl
  have hout : cleanAll true (underRoot es ++ trail) ['/'] 1 = (cleanPath es).reverse := by
    have : (['/'] : List Char) = (cleanPath []).reverse := rfl
    rw [this, hrun, htrail]
  have hcp : cleanPath es = underRoot es := by
    cases es with
    | nil => exact absurd rfl hne
    | cons e es => rfl
  rw [Clean_of_rooted _ hhead, hout, hcp, List.reverse_reverse]
  have hlen : (underRoot es).reverse.length ≠ 0 := by
    cases es with
    | nil => exact absurd rfl hne
    | cons e es => simp [underRoot]
  rw [if_neg hlen]

theorem dropWhile_append_of_all (p : Char → Bool) (xs ys : List Char)
    (h : ∀ x ∈ xs, p x = true) : (xs ++ ys).dropWhile p = ys.dropWhile p := by
  induction xs with
  | nil => rfl
  | cons a xs ih =>
    rw [List.cons_append, List.dropWhile_cons, if_pos (h a (List.mem_cons_self _ _))]
    exact ih (fun x hx => h x (List.mem_cons_of_mem _ hx))

theorem splitDir_append (xs ys : List Char) (hy : '/' ∉ ys) :
    splitDir (xs ++ '/' :: ys) = xs ++ ['/'] := by
  unfold splitDir
  have h1 : (xs ++ '/' :: ys).reverse = ys.reverse ++ '/' :: xs.reverse := by simp
  rw [h1, dropWhile_append_of_all _ _ _ (by
    intro x hx
    have : x ≠ '/' := fun h => hy (h ▸ List.mem_reverse.1 hx)
    simpa using this)]
  simp

end path

/-! ## `pkg/config` -/

namespace config

theorem plain_pkg : path.IsPlainElem "pkg".data ∧ path.IsPlainElem "config".data ∧
    path.IsPlainElem "ssl".data := by
  unfold path.IsPlainElem
  decide

/-- When `config.go` lies at `<root>/pkg/config/config.go`, for a clean rooted path
`<root>`, the local base path is `<root>/ssl`. -/
theorem generateLocalBasePath_repo (w : World) (root : List (List Char))
    (hroot : ∀ e ∈ root, path.IsPlainElem e)
    (hfile : w.callerFile = String.mk (path.underRoot root) ++ "/pkg/config/config.go") :
    generateLocalBasePath w = String.mk (path.underRoot root) ++ "/ssl" := by
  obtain ⟨hpkg, hconfig, hssl⟩ := plain_pkg
  have hroot1 : ∀ e ∈ root ++ ["pkg".data], path.IsPlainElem e := by
    intro e he
    rcases List.mem_append.1 he with h | h
    · exact hroot e h
    · rw [List.mem_singleton.1 h]; exact hpkg
  have hroot2 : ∀ e ∈ root ++ ["pkg".data] ++ ["config".data], path.IsPlainElem e := by
    intro e he
    rcases List.mem_append.1 he with h | h
    · exact hroot1 e h
    · rw [List.mem_singleton.1 h]; exact hconfig
  have hroot3 : ∀ e ∈ root ++ ["ssl".data], path.IsPlainElem e := by
    intro e he
    rcases List.mem_append.1 he with h | h
    · exact hroot e h
    · rw [List.mem_singleton.1 h]; exact hssl
  -- the directory of config.go
  have hdata : w.callerFile =
      String.mk (path.underRoot (root ++ ["pkg".data] ++ ["config".data])
        ++ '/' :: "config.go".data) := by
    rw [hfile, path.underRoot_append, path.underRoot_append]
    simp only [path.underRoot, List.append_nil, List.append_assoc]
    rfl
  have hdir : path.Dir w.callerFile =
      String.mk (path.underRoot (root ++ ["pkg".data] ++ ["config".data])) := by
    unfold path.Dir
    rw [hdata]
    show path.Clean (String.mk (path.splitDir (_ ++ '/' :: "config.go".data))) = _
    rw [path.splitDir_append _ _ (by decide)]
    exact path.Clean_underRoot _ _ hroot2 (by simp) (Or.inr rfl)
  -- joining it with ../../ssl
  have hbuf : path.joinBuf
      [String.mk (path.underRoot (root ++ ["pkg".data] ++ ["config".data])), "..", "..", "ssl"] ""
      = String.mk (path.underRoot (root ++ ["pkg".data] ++ ["config".data])
          ++ "/../../ssl".data) := by
    have hne : String.mk (path.underRoot (root ++ ["pkg".data] ++ ["config".data])) ≠ "" :=
      path.mk_ne_empty _ (by
        rw [path.underRoot_append]
        simp [path.underRoot])
    have hl : 0 < (String.mk
        (path.underRoot (root ++ ["pkg".data] ++ ["config".data]))).length := by
      show 0 < (path.underRoot (root ++ ["pkg".data] ++ ["config".data])).length
      rw [path.underRoot_append]
      simp [path.underRoot]
    simp only [path.joinBuf, hne, ne_eq, not_false_eq_true, or_true, if_true,
      show ¬ (0 < ("" : String).length) by decide, if_false, String.empty_append, hl,
      String.length_append, true_or, Nat.add_pos_iff_pos_or_pos]
    apply String.ext
    simp only [String.data_append, List.append_assoc]
    rfl
  have hjoin : path.Join
      [String.mk (path.underRoot (root ++ ["pkg".data] ++ ["config".data])), "..", "..", "ssl"]
      = String.mk (path.underRoot (root ++ ["ssl".data])) := by
    unfold path.Join
    have hsum : ¬ ((List.map String.length
        [String.mk (path.underRoot (root ++ ["pkg".data] ++ ["config".data])), "..", "..",
          "ssl"]).sum = 0) := by
      simp [String.length]
    rw [if_neg hsum, hbuf]
    have hhead : (path.underRoot (root ++ ["pkg".data] ++ ["config".data])
        ++ "/../../ssl".data).head? = some '/' := by
      rw [path.underRoot_append, path.underRoot_append]
      cases root <;> simp [path.underRoot]
    have hrun : path.cleanAll true (path.underRoot (root ++ ["pkg".data] ++ ["config".data])
        ++ "/../../ssl".data) ['/'] 1 = (path.cleanPath (root ++ ["ssl".data])).reverse := by
      have h0 : (['/'] : List Char) = (path.cleanPath []).reverse := rfl
      rw [h0, path.cleanAll_elems _ [] "/../../ssl".data (by simp) hroot2 (Or.inr rfl),
        List.nil_append]
      show path.cleanAll true ('/' :: '.' :: '.' :: '/' :: '.' :: '.' :: "/ssl".data) _ 1 = _
      rw [path.cleanAll_dotdot_cleanPath _ _ ('/' :: '.' :: '.' :: "/ssl".data) hroot1 hconfig
          (Or.inr rfl),
        path.cleanAll_dotdot_cleanPath _ _ "/ssl".data hroot hpkg (Or.inr rfl)]
      have h1 : "/ssl".data = path.underRoot ["ssl".data] ++ [] := rfl
      rw [h1, path.cleanAll_elems _ root [] hroot (by
        intro x hx; rw [List.mem_singleton.1 hx]; exact hssl) (Or.inl rfl)]
      rfl
    have hcp : path.cleanPath (root ++ ["ssl".data]) = path.underRoot (root ++ ["ssl".data]) := by
      cases root <;> rfl
    rw [path.Clean_of_rooted _ hhead, hrun, hcp, List.reverse_reverse]
    have hlen : (path.underRoot (root ++ ["ssl".data])).reverse.length ≠ 0 := by
      rw [path.underRoot_append]
      simp [path.underRoot]
    rw [if_neg hlen]
  unfold generateLocalBasePath
  simp only [hdir, hjoin]
  rw [show path.underRoot (root ++ ["ssl".data]) = path.underRoot (root ++ ["ssl".data]) ++ []
    by simp, path.Clean_underRoot _ _ hroot3 (by simp) (Or.inl rfl), path.underRoot_append]
  rfl

theorem getEnvOrDefault_isKnob (w : World) (key dflt : String) :
    IsKnob w key dflt (getEnvOrDefault w key dflt) := by
  unfold IsKnob getEnvOrDefault os.Getenv
  constructor
  · intro v hv hne
    rw [hv]
    simp [hne]
  · rintro (h | h) <;> rw [h] <;> simp

/-- C4. On the first call (`globalConfigs` still nil) `FromEnvs` returns, for each of the
eight string knobs, the value of its environment variable when that is set to a non-empty
string and the documented default otherwise; with an empty environment `MaxJobs` is 10000,
`PollInterval` is 60 seconds and `SSLMode` is `disable`. -/
theorem FromEnvs_string_knobs (w : World) :
    IsKnob w "STORAGE_KIND" "postgres" (FromEnvs w none).1.Kind ∧
    IsKnob w "DB_PROTOCOL" "postgresql" (FromEnvs w none).1.Protocol ∧
    IsKnob w "DB_HOST" "localhost" (FromEnvs w none).1.Host ∧
    IsKnob w "DB_PORT" "5432" (FromEnvs w none).1.Port ∧
    IsKnob w "DB_USER" "user" (FromEnvs w none).1.User ∧
    IsKnob w "DB_PASS" "password" (FromEnvs w none).1.Pass ∧
    IsKnob w "DB_NAME" "db1" (FromEnvs w none).1.Dbname ∧
    IsKnob w "APP_NAME" "application1" (FromEnvs w none).1.AppName ∧
    (w.environ = [] →
      (FromEnvs w none).1.MaxJobs = 10000 ∧
      (FromEnvs w none).1.PollInterval = 60 * time.Second ∧
      (FromEnvs w none).1.PollInterval = 60000000000 ∧
      (FromEnvs w none).1.SSLConfigs.SSLMode = "disable") := by
  refine ⟨getEnvOrDefault_isKnob w _ _, getEnvOrDefault_isKnob w _ _,
    getEnvOrDefault_isKnob w _ _, getEnvOrDefault_isKnob w _ _, getEnvOrDefault_isKnob w _ _,
    getEnvOrDefault_isKnob w _ _, getEnvOrDefault_isKnob w _ _, getEnvOrDefault_isKnob w _ _,
    ?_⟩
  intro he
  refine ⟨rfl, rfl, rfl, ?_⟩
  have hm : getEnvOrDefault w DB_SSLMode defaultSSLMode = "disable" := by
    unfold getEnvOrDefault os.Getenv
    rw [he]
    rfl
  show (getSSLConfigs w).SSLMode = "disable"
  unfold getSSLConfigs
  simp only [hm]
  rfl

/-- The knobs of C4 in a container in which every variable is set, and on a machine with
an empty environment. -/
theorem FromEnvs_string_knobs_witness :
    ((FromEnvs examples.containerWorld none).1.Kind = "pg" ∧
      (FromEnvs examples.containerWorld none).1.AppName = "worker7") ∧
    ((FromEnvs examples.devWorld none).1.Kind = "postgres" ∧
      (FromEnvs examples.devWorld none).1.MaxJobs = 10000 ∧
      (FromEnvs examples.devWorld none).1.SSLConfigs.SSLMode = "disable") :=
  ⟨⟨(FromEnvs_string_knobs examples.containerWorld).1.1 "pg" (by decide) (by decide),
    (FromEnvs_string_knobs examples.containerWorld).2.2.2.2.2.2.2.1.1 "worker7"
      (by decide) (by decide)⟩,
   ⟨(FromEnvs_string_knobs examples.devWorld).1.2 (Or.inl (by decide)),
    ((FromEnvs_string_knobs examples.devWorld).2.2.2.2.2.2.2.2 rfl).1,
    ((FromEnvs_string_knobs examples.devWorld).2.2.2.2.2.2.2.2 rfl).2.2.2⟩⟩

/-- C5. With `MAX_JOBS=5` and `POLL_INTERVAL_SECONDS=7` in the environment, both of which
`strconv.ParseInt` accepts, the first call to `FromEnvs` still returns `MaxJobs = 10000`
and `PollInterval = 60 s`, and so do `MaxJobs()` and `PollingInterval()`: `FromEnvs` never
calls `parseMaxJobs` or `ParsePollInterval`. -/
theorem FromEnvs_ignores_MAX_JOBS :
    strconv.ParseInt (os.Getenv examples.containerWorld "MAX_JOBS") = some 5 ∧
    strconv.ParseInt (os.Getenv examples.containerWorld "POLL_INTERVAL_SECONDS") = some 7 ∧
    (FromEnvs examples.containerWorld none).1.MaxJobs = 10000 ∧
    (FromEnvs examples.containerWorld none).1.PollInterval = 60 * time.Second ∧
    (MaxJobs examples.containerWorld none).1 = 10000 ∧
    (PollingInterval examples.containerWorld none).1 = 60 * time.Second := by
  refine ⟨by decide, by decide, rfl, rfl, rfl, rfl⟩

/-- The function `FromEnvs` gives `MaxJobs` and `PollInterval` their defaults in every environment. -/
theorem FromEnvs_defaults (w : World) :
    (FromEnvs w none).1.MaxJobs = 10000 ∧ (FromEnvs w none).1.PollInterval = 60 * time.Second :=
  ⟨rfl, rfl⟩

/-- What `ParsePollInterval` does when it is called after `FromEnvs`: the variable then
takes effect in `globalConfigs`. -/
theorem ParsePollInterval_after_FromEnvs :
    (match ParsePollInterval examples.containerWorld (FromEnvs examples.containerWorld none).1
        (FromEnvs examples.containerWorld none).2 with
      | Outcome.returned g => (PollingInterval examples.containerWorld g).1
      | Outcome.panicked => 0) = 7 * time.Second := by
  decide

/-- Called before the record exists, `ParsePollInterval` and `parseMaxJobs` panic. -/
theorem parse_before_FromEnvs_panics (w : World) (cfg : Configs) :
    ParsePollInterval w cfg none = Outcome.panicked ∧
    parseMaxJobs w cfg none = Outcome.panicked :=
  ⟨rfl, rfl⟩

/-- C7. When `DB_SSLMode` is unset, empty or `disable`, `getSSLConfigs` returns mode
`disable` and four empty strings. When it is `require`, the mode is `require`, the three
paths are the base directory followed by `/ca-cert.pem`, `/client-cert.pem` and
`/client-key.pem`, the base directory being `/app` when that directory can be read and
the repository's `ssl` directory (`generateLocalBasePath`) otherwise, and the password is
`DB_SSL_PASS` when non-empty and `clientpass` otherwise. The repository's `ssl` directory
is `<root>/ssl` when `config.go` was compiled at `<root>/pkg/config/config.go`, for every
clean rooted path `<root>`. -/
theorem getSSLConfigs_locates_tls (w : World) :
    ((w.environ.lookup "DB_SSLMode" = none ∨ w.environ.lookup "DB_SSLMode" = some "" ∨
        w.environ.lookup "DB_SSLMode" = some "disable") →
      getSSLConfigs w =
        { SSLMode := "disable", CACertPath := "", SSLCertPath := "", SSLKeyPath := "",
          SSLPassword := "" }) ∧
    (w.environ.lookup "DB_SSLMode" = some "require" →
      (getSSLConfigs w).SSLMode = "require" ∧
      (getSSLConfigs w).CACertPath =
        (if w.readDirOk "/app" then "/app" else generateLocalBasePath w) ++ "/ca-cert.pem" ∧
      (getSSLConfigs w).SSLCertPath =
        (if w.readDirOk "/app" then "/app" else generateLocalBasePath w)
          ++ "/client-cert.pem" ∧
      (getSSLConfigs w).SSLKeyPath =
        (if w.readDirOk "/app" then "/app" else generateLocalBasePath w)
          ++ "/client-key.pem" ∧
      IsKnob w "DB_SSL_PASS" "clientpass" (getSSLConfigs w).SSLPassword) ∧
    (∀ root : List (List Char), (∀ e ∈ root, path.IsPlainElem e) →
      w.callerFile = String.mk (path.underRoot root) ++ "/pkg/config/config.go" →
      generateLocalBasePath w = String.mk (path.underRoot root) ++ "/ssl") := by
  refine ⟨?_, ?_, fun root hroot hfile => generateLocalBasePath_repo w root hroot hfile⟩
  · intro h
    have hm : getEnvOrDefault w DB_SSLMode defaultSSLMode = "disable" := by
      unfold getEnvOrDefault os.Getenv
      rcases h with h | h | h <;> (rw [show DB_SSLMode = "DB_SSLMode" from rfl, h]; rfl)
    unfold getSSLConfigs
    simp only [hm]
    rfl
  · intro h
    have hm : getEnvOrDefault w DB_SSLMode defaultSSLMode = "require" := by
      unfold getEnvOrDefault os.Getenv
      rw [show DB_SSLMode = "DB_SSLMode" from rfl, h]; rfl
    have hne : ¬ ("require" = DISABLE_SSL) := by decide
    have hb : defaultBaseDir = "/app" := rfl
    have hk := getEnvOrDefault_isKnob w "DB_SSL_PASS" "clientpass"
    unfold getSSLConfigs
    simp only [hm, hne, if_false, withinContainer, hb]
    cases hr : w.readDirOk "/app"
    · exact ⟨trivial, rfl, rfl, rfl, hk⟩
    · exact ⟨trivial, rfl, rfl, rfl, hk⟩

/-- C7 on three machines: SSL not configured; SSL required inside a container; SSL
required on a development checkout at `/repo`, with an empty `DB_SSL_PASS`. -/
theorem getSSLConfigs_locates_tls_witness :
    getSSLConfigs examples.devWorld =
        { SSLMode := "disable", CACertPath := "", SSLCertPath := "", SSLKeyPath := "",
          SSLPassword := "" } ∧
    ((getSSLConfigs examples.containerWorld).CACertPath = "/app/ca-cert.pem" ∧
      (getSSLConfigs examples.containerWorld).SSLPassword = "keypass") ∧
    ((getSSLConfigs examples.devSSLWorld).SSLKeyPath = "/repo/ssl/client-key.pem" ∧
      (getSSLConfigs examples.devSSLWorld).SSLPassword = "clientpass" ∧
      generateLocalBasePath examples.devSSLWorld = "/repo/ssl") :=
  ⟨(getSSLConfigs_locates_tls examples.devWorld).1 (Or.inl (by decide)),
   ⟨((getSSLConfigs_locates_tls examples.containerWorld).2.1 (by decide)).2.1.trans
      (by decide),
    ((getSSLConfigs_locates_tls examples.containerWorld).2.1 (by decide)).2.2.2.2.1 "keypass"
      (by decide) (by decide)⟩,
   ⟨((getSSLConfigs_locates_tls examples.devSSLWorld).2.1 (by decide)).2.2.2.1.trans
      (by decide),
    ((getSSLConfigs_locates_tls examples.devSSLWorld).2.1 (by decide)).2.2.2.2.2
      (Or.inr (by decide)),
    ((getSSLConfigs_locates_tls examples.devSSLWorld).2.2 ["repo".data]
      (by unfold path.IsPlainElem; decide) (by decide)).trans (by decide)⟩⟩

/-- C9. The record is memoized: when `FromEnvs` is first called in world `w1` and then
again in world `w2`, the second call returns the record of the first and leaves
`globalConfigs` alone; `AppName()`, `MaxJobs()` and `PollingInterval()` called after it
return that record's fields; and called instead of it (with `globalConfigs` still nil)
they return the fields of the record `FromEnvs` would have built and memoize it. -/
theorem FromEnvs_memoized (w1 w2 : World) :
    (FromEnvs w2 (FromEnvs w1 none).2).1 = (FromEnvs w1 none).1 ∧
    (FromEnvs w2 (FromEnvs w1 none).2).2 = (FromEnvs w1 none).2 ∧
    AppName w2 (FromEnvs w1 none).2 = ((FromEnvs w1 none).1.AppName, (FromEnvs w1 none).2) ∧
    MaxJobs w2 (FromEnvs w1 none).2 = ((FromEnvs w1 none).1.MaxJobs, (FromEnvs w1 none).2) ∧
    PollingInterval w2 (FromEnvs w1 none).2 =
      ((FromEnvs w1 none).1.PollInterval, (FromEnvs w1 none).2) ∧
    AppName w1 none = ((FromEnvs w1 none).1.AppName, (FromEnvs w1 none).2) ∧
    MaxJobs w1 none = ((FromEnvs w1 none).1.MaxJobs, (FromEnvs w1 none).2) ∧
    PollingInterval w1 none = ((FromEnvs w1 none).1.PollInterval, (FromEnvs w1 none).2) ∧
    (FromEnvs w2 (AppName w1 none).2).1 = (FromEnvs w1 none).1 :=
  ⟨rfl, rfl, rfl, rfl, rfl, rfl, rfl, rfl, rfl⟩

/-- Once the record exists, `FromEnvs` returns it whatever the world looks like. -/
theorem FromEnvs_some (w : World) (c : Configs) : FromEnvs w (some c) = (c, some c) := rfl

/-- The accessor `AppName()` always returns the name in the record `FromEnvs` returns, and leaves that
record in `globalConfigs`. -/
theorem AppName_eq (w : World) (g : GlobalConfigs) :
    AppName w g = ((FromEnvs w g).1.AppName, some (FromEnvs w g).1) := by
  cases g <;> rfl

end config

/-! ## `pkg/storage`: `GetClaimedJobs` -/

namespace storage

theorem scanRows_some (w : World) (u : String → List job.Header) (c : config.Configs) :
    ∀ (rows : List JobRow) (acc : List job.Job),
      scanRows w u rows (some c) acc =
        (acc ++ rows.map (fun r => scanJob u r c.AppName), some c) := by
  intro rows
  induction rows with
  | nil => intro acc; simp [scanRows]
  | cons r rows ih =>
    intro acc
    simp only [scanRows, config.AppName]
    rw [ih]
    simp

/-- The outcome of `GetClaimedJobs` in every case. -/
theorem GetClaimedJobs_outcome (w : World) (f : Faults) (u : String → List job.Header)
    (s : Store) (g : config.GlobalConfigs) (limit offset : Int) :
    GetClaimedJobs w f u s g limit offset =
      if f.beginFails then (Outcome.panicked, s, g)
      else if f.queryFails ∨ limit < 0 ∨ offset < 0 then
        (Outcome.returned none, s, (config.AppName w g).2)
      else if f.commitFails then (Outcome.returned none, s, (config.AppName w g).2)
      else
        (Outcome.returned (some
          ((selectClaimed s.jobs (config.AppName w g).1 limit.toNat offset.toNat).map
            (fun r => scanJob u r (config.AppName w g).1))), s, (config.AppName w g).2) := by
  obtain ⟨fb, fq, fc⟩ := f
  have hs : ({ jobs := s.jobs, job_results := s.job_results } : Store) = s := by
    cases s; rfl
  by_cases hlo : limit < 0 ∨ offset < 0
  · cases fb <;> cases fq <;> cases fc <;>
      simp [GetClaimedJobs, Begin, queryClaimed, Commit, hlo]
  · cases fb <;> cases fq <;> cases fc <;>
      simp [GetClaimedJobs, Begin, queryClaimed, Commit, hlo, config.AppName_eq,
        scanRows_some, hs]

theorem selectClaimed_sublist (jobs : List JobRow) (app : String) (limit offset : Nat) :
    (selectClaimed jobs app limit offset).Sublist jobs :=
  ((List.take_sublist _ _).trans (List.drop_sublist _ _)).trans (List.filter_sublist _)

theorem selectClaimed_owned (jobs : List JobRow) (app : String) (limit offset : Nat)
    (r : JobRow) (hr : r ∈ selectClaimed jobs app limit offset) :
    r.claimed_by = some app := by
  have h1 := List.mem_of_mem_drop (List.mem_of_mem_take hr)
  simpa using (List.mem_filter.1 h1).2

theorem selectClaimed_length (jobs : List JobRow) (app : String) (limit offset : Nat) :
    (selectClaimed jobs app limit offset).length =
      min limit ((jobs.filter (fun r => r.claimed_by = some app)).length - offset) := by
  simp [selectClaimed, List.length_take, List.length_drop]

/-- C1. When no database step fails and `limit` and `offset` are not negative,
`GetClaimedJobs` returns a list of handles and leaves the store as it was. The handles
correspond, in order, to rows at distinct positions of the `jobs` table (a sublist of it)
whose `claimed_by` is `config.AppName()`; each handle carries its row's id, cron
expression, endpoint, method, retry bound, last message, last status code (empty and 0
for NULL) and success statuses, and has `ClaimedBy = config.AppName()`; and there are
exactly `min(limit, max(0, owned - offset))` of them, so at most `limit`. -/
theorem GetClaimedJobs_enumerates (w : World) (f : Faults) (u : String → List job.Header)
    (s : Store) (g : config.GlobalConfigs) (limit offset : Int)
    (hb : f.beginFails = false) (hq : f.queryFails = false) (hc : f.commitFails = false)
    (hl : 0 ≤ limit) (ho : 0 ≤ offset) :
    ∃ (rows : List JobRow) (jobs : List job.Job),
      GetClaimedJobs w f u s g limit offset
        = (Outcome.returned (some jobs), s, (config.AppName w g).2) ∧
      rows.Sublist s.jobs ∧
      List.Forall₂
        (fun r j =>
          r.claimed_by = some (config.AppName w g).1 ∧
          j.Id = r.id ∧
          j.CronExpString = r.cron_exp_string ∧
          j.Endpoint = r.endpoint ∧
          j.HttpMethod = r.httpmethod ∧
          j.MaxRetries = r.max_retries ∧
          j.LastMessage = r.last_message.getD "" ∧
          j.LastStatusCode = r.last_status_code.getD 0 ∧
          j.SuccessStatuses = r.success_statuses ∧
          j.ClaimedBy = (config.AppName w g).1)
        rows jobs ∧
      (jobs.length : Int) =
        min limit (max 0
          (((s.jobs.filter (fun r => r.claimed_by = some (config.AppName w g).1)).length : Int)
            - offset)) ∧
      (jobs.length : Int) ≤ limit := by
  refine ⟨selectClaimed s.jobs (config.AppName w g).1 limit.toNat offset.toNat,
    (selectClaimed s.jobs (config.AppName w g).1 limit.toNat offset.toNat).map
      (fun r => scanJob u r (config.AppName w g).1), ?_,
    selectClaimed_sublist _ _ _ _, ?_, ?_, ?_⟩
  · rw [GetClaimedJobs_outcome]
    simp only [hb, hq, hc, not_lt.2 hl, not_lt.2 ho, or_self, Bool.false_eq_true, if_false]
  · rw [List.forall₂_map_right_iff, List.forall₂_same]
    intro r hr
    refine ⟨selectClaimed_owned _ _ _ _ r hr, rfl, rfl, rfl, rfl, rfl, ?_, ?_, rfl, rfl⟩
    · cases h : r.last_message <;> simp [scanJob, sql.scanNullString, h]
    · cases h : r.last_status_code <;> simp [scanJob, sql.scanNullInt32, h]
  · rw [List.length_map, selectClaimed_length]
    omega
  · rw [List.length_map, selectClaimed_length]
    omega

/-- C1 on a store with five jobs, three of them owned by `application1`: with limit 2 and
offset 1 the call returns two handles. -/
theorem GetClaimedJobs_enumerates_witness :
    ∃ (rows : List JobRow) (jobs : List job.Job),
      GetClaimedJobs examples.devWorld noFaults examples.noHeaders examples.mixedStore none 2 1
        = (Outcome.returned (some jobs), examples.mixedStore,
            (config.AppName examples.devWorld none).2) ∧
      rows.Sublist examples.mixedStore.jobs ∧
      List.Forall₂
        (fun r j =>
          r.claimed_by = some (config.AppName examples.devWorld none).1 ∧
          j.Id = r.id ∧
          j.CronExpString = r.cron_exp_string ∧
          j.Endpoint = r.endpoint ∧
          j.HttpMethod = r.httpmethod ∧
          j.MaxRetries = r.max_retries ∧
          j.LastMessage = r.last_message.getD "" ∧
          j.LastStatusCode = r.last_status_code.getD 0 ∧
          j.SuccessStatuses = r.success_statuses ∧
          j.ClaimedBy = (config.AppName examples.devWorld none).1)
        rows jobs ∧
      (jobs.length : Int) =
        min 2 (max 0
          (((examples.mixedStore.jobs.filter
              (fun r => r.claimed_by = some (config.AppName examples.devWorld none).1)).length
              : Int) - 1)) ∧
      (jobs.length : Int) ≤ 2 :=
  GetClaimedJobs_enumerates examples.devWorld noFaults examples.noHeaders examples.mixedStore
    none 2 1 rfl rfl rfl (by decide) (by decide)

/-- The ids of the handles `GetClaimedJobs` returns on the five-job store, for the whole
table and for the window of two rows after the first. -/
theorem GetClaimedJobs_mixedStore_ids :
    (match (GetClaimedJobs examples.devWorld noFaults examples.noHeaders examples.mixedStore
        none 10 0).1 with
      | Outcome.returned (some jobs) => jobs.map (fun j => j.Id)
      | _ => []) = [1, 4, 5] ∧
    (match (GetClaimedJobs examples.devWorld noFaults examples.noHeaders examples.mixedStore
        none 2 1).1 with
      | Outcome.returned (some jobs) => jobs.map (fun j => j.Id)
      | _ => []) = [4, 5] := by
  constructor <;> decide

/-- C3, as stated, fails: it is not the case that every handle `GetClaimedJobs` returns
comes from a row that is owned by the worker and whose status is `claimed` or
`executing`. A store whose only row is owned by `application1` and has status `available`
yields a handle for that row. -/
theorem GetClaimedJobs_returns_available_row :
    ¬ (∀ (w : World) (f : Faults) (u : String → List job.Header) (s : Store)
        (g : config.GlobalConfigs) (limit offset : Int) (jobs : List job.Job),
        (GetClaimedJobs w f u s g limit offset).1 = Outcome.returned (some jobs) →
        ∀ j ∈ jobs, ∃ r ∈ s.jobs, r.id = j.Id ∧
          r.claimed_by = some (config.AppName w g).1 ∧
          (r.status = "claimed" ∨ r.status = "executing")) := by
  intro h
  have h1 := h examples.devWorld noFaults examples.noHeaders examples.strandedStore none 10 0
    [scanJob examples.noHeaders (examples.seedRow 1 "available" (some "application1"))
      "application1"] (by decide)
  obtain ⟨r, hr, -, -, hst⟩ := h1 _ (List.mem_singleton.2 rfl)
  have hr1 : r = examples.seedRow 1 "available" (some "application1") := by
    simpa [examples.strandedStore] using hr
  subst hr1
  revert hst
  decide

/-- C3, amended. Every handle `GetClaimedJobs` returns is the scan of a row of the `jobs`
table whose `claimed_by` is the worker's identity; the status of the rows is not looked at:
rewriting the `status` column in any way leaves the returned handles the same. -/
theorem GetClaimedJobs_selects_by_owner (w : World) (f : Faults)
    (u : String → List job.Header) (s : Store) (g : config.GlobalConfigs)
    (limit offset : Int) (jobs : List job.Job)
    (h : (GetClaimedJobs w f u s g limit offset).1 = Outcome.returned (some jobs)) :
    (∀ j ∈ jobs, ∃ r ∈ s.jobs, r.claimed_by = some (config.AppName w g).1 ∧
      j = scanJob u r (config.AppName w g).1) ∧
    (∀ restatus : JobRow → String,
      (GetClaimedJobs w f u
        { s with jobs := s.jobs.map (fun r => { r with status := restatus r }) }
        g limit offset).1 = Outcome.returned (some jobs)) := by
  rw [GetClaimedJobs_outcome] at h
  by_cases h1 : f.beginFails = true
  · rw [if_pos h1] at h
    simp at h
  rw [if_neg h1] at h
  by_cases h2 : f.queryFails = true ∨ limit < 0 ∨ offset < 0
  · rw [if_pos h2] at h
    simp at h
  rw [if_neg h2] at h
  by_cases h3 : f.commitFails = true
  · rw [if_pos h3] at h
    simp at h
  rw [if_neg h3] at h
  simp only [Outcome.returned.injEq, Option.some.injEq] at h
  constructor
  · intro j hj
    rw [← h, List.mem_map] at hj
    obtain ⟨r, hr, rfl⟩ := hj
    exact ⟨r, (selectClaimed_sublist _ _ _ _).subset hr, selectClaimed_owned _ _ _ _ r hr,
      rfl⟩
  · intro restatus
    rw [GetClaimedJobs_outcome]
    simp only [h1, h2, h3, if_false, Outcome.returned.injEq, Option.some.injEq]
    rw [← h]
    simp only [selectClaimed, List.filter_map, List.map_drop, List.map_take, List.map_map]
    rfl

/-- C3, amended, on the store whose only row is owned but `available`: the row is
returned, and it still is when its status is changed to `claimed`. -/
theorem GetClaimedJobs_selects_by_owner_witness :
    (∀ j ∈ [scanJob examples.noHeaders (examples.seedRow 1 "available" (some "application1"))
        "application1"],
      ∃ r ∈ examples.strandedStore.jobs,
        r.claimed_by = some (config.AppName examples.devWorld none).1 ∧
        j = scanJob examples.noHeaders r (config.AppName examples.devWorld none).1) ∧
    (∀ restatus : JobRow → String,
      (GetClaimedJobs examples.devWorld noFaults examples.noHeaders
        { examples.strandedStore with
          jobs := examples.strandedStore.jobs.map (fun r => { r with status := restatus r }) }
        none 10 0).1 =
      Outcome.returned (some
        [scanJob examples.noHeaders (examples.seedRow 1 "available" (some "application1"))
          "application1"])) :=
  GetClaimedJobs_selects_by_owner examples.devWorld noFaults examples.noHeaders
    examples.strandedStore none 10 0 _ (by decide)

/-- C6. When `Begin` fails, `GetClaimedJobs` does not return nil: the deferred
`tx.Rollback` on the nil transaction panics before the error is looked at. -/
theorem GetClaimedJobs_panics_when_Begin_fails :
    (GetClaimedJobs examples.devWorld
      { beginFails := true, queryFails := false, commitFails := false }
      examples.noHeaders examples.seededStore none 10 0).1 = Outcome.panicked := by
  decide

/-- A failed `Begin` makes `GetClaimedJobs` panic in every state. -/
theorem GetClaimedJobs_Begin_failure (w : World) (f : Faults) (u : String → List job.Header)
    (s : Store) (g : config.GlobalConfigs) (limit offset : Int) (hb : f.beginFails = true) :
    GetClaimedJobs w f u s g limit offset = (Outcome.panicked, s, g) := by
  rw [GetClaimedJobs_outcome, if_pos hb]

/-- A failed query or a failed commit makes `GetClaimedJobs` return nil, with the store
as it was. -/
theorem GetClaimedJobs_query_or_commit_failure (w : World) (f : Faults)
    (u : String → List job.Header) (s : Store) (g : config.GlobalConfigs)
    (limit offset : Int) (hb : f.beginFails = false)
    (hqc : f.queryFails = true ∨ f.commitFails = true) :
    (GetClaimedJobs w f u s g limit offset).1 = Outcome.returned none ∧
    (GetClaimedJobs w f u s g limit offset).2.1 = s := by
  rw [GetClaimedJobs_outcome]
  simp only [hb, Bool.false_eq_true, if_false]
  split_ifs with h1 h2
  · exact ⟨rfl, rfl⟩
  · exact ⟨rfl, rfl⟩
  · rcases hqc with h | h
    · exact absurd (Or.inl h) h1
    · exact absurd h h2

/-- C8. When no database step fails, every handle `GetClaimedJobs` returns carries, for
each of `last_execution`, `should_execute_at` and `last_response_at` that holds a signed
64-bit value `v` in its row, the instant `time.UnixMicro v`, and that instant's
`UnixMicro()` is `v` again, for negative `v` too. -/
theorem GetClaimedJobs_timestamps_roundtrip (w : World) (f : Faults)
    (u : String → List job.Header) (s : Store) (g : config.GlobalConfigs)
    (limit offset : Int)
    (hb : f.beginFails = false) (hq : f.queryFails = false) (hc : f.commitFails = false)
    (hl : 0 ≤ limit) (ho : 0 ≤ offset) :
    ∃ jobs : List job.Job,
      (GetClaimedJobs w f u s g limit offset).1 = Outcome.returned (some jobs) ∧
      List.Forall₂
        (fun r j =>
          (∀ v, r.last_execution = some v → IsInt64 v →
            j.LastExecution = time.UnixMicro v ∧ j.LastExecution.UnixMicro = v) ∧
          (∀ v, r.should_execute_at = some v → IsInt64 v →
            j.ShouldExecuteAt = time.UnixMicro v ∧ j.ShouldExecuteAt.UnixMicro = v) ∧
          (∀ v, r.last_response_at = some v → IsInt64 v →
            j.LastResponseAt = time.UnixMicro v ∧ j.LastResponseAt.UnixMicro = v))
        (selectClaimed s.jobs (config.AppName w g).1 limit.toNat offset.toNat) jobs := by
  refine ⟨(selectClaimed s.jobs (config.AppName w g).1 limit.toNat offset.toNat).map
      (fun r => scanJob u r (config.AppName w g).1), ?_, ?_⟩
  · rw [GetClaimedJobs_outcome]
    simp only [hb, hq, hc, not_lt.2 hl, not_lt.2 ho, or_self, Bool.false_eq_true, if_false]
  · rw [List.forall₂_map_right_iff, List.forall₂_same]
    intro r _
    refine ⟨?_, ?_, ?_⟩
    · intro v hv hv64
      have e : (scanJob u r (config.AppName w g).1).LastExecution = time.UnixMicro v := by
        simp [scanJob, sql.scanNullInt64, hv]
      exact ⟨e, by rw [e]; exact time.UnixMicro_roundtrip v hv64⟩
    · intro v hv hv64
      have e : (scanJob u r (config.AppName w g).1).ShouldExecuteAt = time.UnixMicro v := by
        simp [scanJob, sql.scanNullInt64, hv]
      exact ⟨e, by rw [e]; exact time.UnixMicro_roundtrip v hv64⟩
    · intro v hv hv64
      have e : (scanJob u r (config.AppName w g).1).LastResponseAt = time.UnixMicro v := by
        simp [scanJob, sql.scanNullInt64, hv]
      exact ⟨e, by rw [e]; exact time.UnixMicro_roundtrip v hv64⟩

/-- C8 on the five-job store, whose first row has `last_execution` 1.5 s before 1970. -/
theorem GetClaimedJobs_timestamps_roundtrip_witness :
    ∃ jobs : List job.Job,
      (GetClaimedJobs examples.devWorld noFaults examples.noHeaders examples.mixedStore none
        10 0).1 = Outcome.returned (some jobs) ∧
      List.Forall₂
        (fun r j =>
          (∀ v, r.last_execution = some v → IsInt64 v →
            j.LastExecution = time.UnixMicro v ∧ j.LastExecution.UnixMicro = v) ∧
          (∀ v, r.should_execute_at = some v → IsInt64 v →
            j.ShouldExecuteAt = time.UnixMicro v ∧ j.ShouldExecuteAt.UnixMicro = v) ∧
          (∀ v, r.last_response_at = some v → IsInt64 v →
            j.LastResponseAt = time.UnixMicro v ∧ j.LastResponseAt.UnixMicro = v))
        (selectClaimed examples.mixedStore.jobs (config.AppName examples.devWorld none).1
          (10 : Int).toNat (0 : Int).toNat) jobs :=
  GetClaimedJobs_timestamps_roundtrip examples.devWorld noFaults examples.noHeaders
    examples.mixedStore none 10 0 rfl rfl rfl (by decide) (by decide)

/-- The instant 1.5 s before the epoch, as `time.UnixMicro` represents it. -/
theorem UnixMicro_before_epoch :
    time.UnixMicro (-1500000) =
      { wall := 500000000, ext := 62135596798, loc := time.Location.Local } ∧
    (time.UnixMicro (-1500000)).UnixMicro = -1500000 := by
  constructor <;> decide

/-- The instant `time.UnixMicro 0`: the Unix epoch, which is not the zero `time.Time`. -/
theorem UnixMicro_zero :
    time.UnixMicro 0 = { wall := 0, ext := 62135596800, loc := time.Location.Local } ∧
    (time.UnixMicro 0).UnixMicro = 0 ∧
    (time.UnixMicro 0).IsZero = false ∧
    time.UnixMicro 0 ≠ time.zeroTime ∧
    time.zeroTime.IsZero = true := by
  refine ⟨by decide, by decide, by decide, by decide, by decide⟩

/-- C10. When no database step fails, a handle whose row has a NULL `should_execute_at`
(likewise `last_execution`, `last_response_at`) carries the Unix epoch in that field: the
instant `time.UnixMicro 0`, whose `UnixMicro()` is 0 and which is not the zero
`time.Time`; the handle is the very handle a row storing 0 in that column produces. A NULL
`last_message`, `last_status_code` or `headers_string` yields the empty string, 0 and the
empty header list. -/
theorem GetClaimedJobs_null_columns (w : World) (f : Faults)
    (u : String → List job.Header) (s : Store) (g : config.GlobalConfigs)
    (limit offset : Int)
    (hb : f.beginFails = false) (hq : f.queryFails = false) (hc : f.commitFails = false)
    (hl : 0 ≤ limit) (ho : 0 ≤ offset) :
    ∃ jobs : List job.Job,
      (GetClaimedJobs w f u s g limit offset).1 = Outcome.returned (some jobs) ∧
      List.Forall₂
        (fun r j =>
          (r.should_execute_at = none →
            j.ShouldExecuteAt = time.UnixMicro 0 ∧ j.ShouldExecuteAt.UnixMicro = 0 ∧
            j.ShouldExecuteAt.IsZero = false ∧ j.ShouldExecuteAt ≠ time.zeroTime ∧
            j = scanJob u { r with should_execute_at := some 0 } (config.AppName w g).1) ∧
          (r.last_execution = none →
            j.LastExecution = time.UnixMicro 0 ∧ j.LastExecution.UnixMicro = 0 ∧
            j.LastExecution.IsZero = false ∧ j.LastExecution ≠ time.zeroTime ∧
            j = scanJob u { r with last_execution := some 0 } (config.AppName w g).1) ∧
          (r.last_response_at = none →
            j.LastResponseAt = time.UnixMicro 0 ∧ j.LastResponseAt.UnixMicro = 0 ∧
            j.LastResponseAt.IsZero = false ∧ j.LastResponseAt ≠ time.zeroTime ∧
            j = scanJob u { r with last_response_at := some 0 } (config.AppName w g).1) ∧
          (r.last_message = none → j.LastMessage = "") ∧
          (r.last_status_code = none → j.LastStatusCode = 0) ∧
          (r.headers_string = none → j.Headers = []))
        (selectClaimed s.jobs (config.AppName w g).1 limit.toNat offset.toNat) jobs := by
  refine ⟨(selectClaimed s.jobs (config.AppName w g).1 limit.toNat offset.toNat).map
      (fun r => scanJob u r (config.AppName w g).1), ?_, ?_⟩
  · rw [GetClaimedJobs_outcome]
    simp only [hb, hq, hc, not_lt.2 hl, not_lt.2 ho, or_self, Bool.false_eq_true, if_false]
  · rw [List.forall₂_map_right_iff, List.forall₂_same]
    intro r _
    obtain ⟨z1, z2, z3, z4, -⟩ := UnixMicro_zero
    refine ⟨?_, ?_, ?_, ?_, ?_, ?_⟩
    · intro hn
      have e : (scanJob u r (config.AppName w g).1).ShouldExecuteAt = time.UnixMicro 0 := by
        simp [scanJob, sql.scanNullInt64, hn]
      refine ⟨e, by rw [e]; exact z2, by rw [e]; exact z3, by rw [e]; exact z4, ?_⟩
      simp [scanJob, sql.scanNullInt64, hn]
    · intro hn
      have e : (scanJob u r (config.AppName w g).1).LastExecution = time.UnixMicro 0 := by
        simp [scanJob, sql.scanNullInt64, hn]
      refine ⟨e, by rw [e]; exact z2, by rw [e]; exact z3, by rw [e]; exact z4, ?_⟩
      simp [scanJob, sql.scanNullInt64, hn]
    · intro hn
      have e : (scanJob u r (config.AppName w g).1).LastResponseAt = time.UnixMicro 0 := by
        simp [scanJob, sql.scanNullInt64, hn]
      refine ⟨e, by rw [e]; exact z2, by rw [e]; exact z3, by rw [e]; exact z4, ?_⟩
      simp [scanJob, sql.scanNullInt64, hn]
    · intro hn
      simp [scanJob, sql.scanNullString, hn]
    · intro hn
      simp [scanJob, sql.scanNullInt32, hn]
    · intro hn
      simp [scanJob, sql.scanNullString, hn]

/-- C10 on the five-job store, in which most nullable columns are NULL. -/
theorem GetClaimedJobs_null_columns_witness :
    ∃ jobs : List job.Job,
      (GetClaimedJobs examples.devWorld noFaults examples.noHeaders examples.mixedStore none
        10 0).1 = Outcome.returned (some jobs) ∧
      List.Forall₂
        (fun r j =>
          (r.should_execute_at = none →
            j.ShouldExecuteAt = time.UnixMicro 0 ∧ j.ShouldExecuteAt.UnixMicro = 0 ∧
            j.ShouldExecuteAt.IsZero = false ∧ j.ShouldExecuteAt ≠ time.zeroTime ∧
            j = scanJob examples.noHeaders { r with should_execute_at := some 0 }
              (config.AppName examples.devWorld none).1) ∧
          (r.last_execution = none →
            j.LastExecution = time.UnixMicro 0 ∧ j.LastExecution.UnixMicro = 0 ∧
            j.LastExecution.IsZero = false ∧ j.LastExecution ≠ time.zeroTime ∧
            j = scanJob examples.noHeaders { r with last_execution := some 0 }
              (config.AppName examples.devWorld none).1) ∧
          (r.last_response_at = none →
            j.LastResponseAt = time.UnixMicro 0 ∧ j.LastResponseAt.UnixMicro = 0 ∧
            j.LastResponseAt.IsZero = false ∧ j.LastResponseAt ≠ time.zeroTime ∧
            j = scanJob examples.noHeaders { r with last_response_at := some 0 }
              (config.AppName examples.devWorld none).1) ∧
          (r.last_message = none → j.LastMessage = "") ∧
          (r.last_status_code = none → j.LastStatusCode = 0) ∧
          (r.headers_string = none → j.Headers = []))
        (selectClaimed examples.mixedStore.jobs (config.AppName examples.devWorld none).1
          (10 : Int).toNat (0 : Int).toNat) jobs :=
  GetClaimedJobs_null_columns examples.devWorld noFaults examples.noHeaders
    examples.mixedStore none 10 0 rfl rfl rfl (by decide) (by decide)

/-! ## `pkg/storage`: `WriteDone` -/

theorem markDone_id (j : job.Job) (r : JobRow) : (markDone j r).id = r.id := by
  unfold markDone
  split <;> rfl

/-- C2. After `WriteDone j` has returned without error on a store whose `jobs` table has a
row with `id = j.Id`, the `job_results` table has a row with `job_id = j.Id` whose
schedule, request and outcome columns and `claimed_by` equal the fields of `j` and whose
three instants are those of `j` in Unix microseconds; and the `jobs` table has a row with
`id = j.Id`, every such row having `last_execution`, `should_execute_at`,
`last_response_at`, `last_message` and `last_status_code` equal to the same values. The
Unix microseconds of an instant of `j` are those of the clock when the instant is a value
of `time.Now()`, and `v` when it is `time.UnixMicro v`. -/
theorem WriteDone_records (f : WriteFaults) (s s1 : Store) (j : job.Job)
    (h : WriteDone f s j = some s1) (hrow : ∃ r ∈ s.jobs, r.id = j.Id) :
    (∃ x ∈ s1.job_results,
      x.job_id = j.Id ∧
      x.cron_exp_string = j.CronExpString ∧
      x.endpoint = j.Endpoint ∧
      x.httpmethod = j.HttpMethod ∧
      x.max_retries = j.MaxRetries ∧
      x.last_message = some j.LastMessage ∧
      x.last_status_code = j.LastStatusCode ∧
      x.claimed_by = j.ClaimedBy ∧
      x.execution_time = j.LastExecution.UnixMicro ∧
      x.should_execute_at = j.ShouldExecuteAt.UnixMicro ∧
      x.last_response_at = j.LastResponseAt.UnixMicro) ∧
    (∃ r ∈ s1.jobs, r.id = j.Id) ∧
    (∀ r ∈ s1.jobs, r.id = j.Id →
      r.last_execution = some j.LastExecution.UnixMicro ∧
      r.should_execute_at = some j.ShouldExecuteAt.UnixMicro ∧
      r.last_response_at = some j.LastResponseAt.UnixMicro ∧
      r.last_message = some j.LastMessage ∧
      r.last_status_code = some j.LastStatusCode) ∧
    (∀ t ∈ [j.LastExecution, j.ShouldExecuteAt, j.LastResponseAt],
      (∀ sec nsec mono startNano : Int, time.IsClockReading sec nsec →
        t = time.Now sec nsec mono startNano →
        t.UnixMicro = sec * 1000000 + nsec / 1000) ∧
      (∀ v : Int, IsInt64 v → t = time.UnixMicro v → t.UnixMicro = v)) := by
  unfold WriteDone at h
  split_ifs at h
  simp only [Option.some.injEq] at h
  subst h
  refine ⟨⟨resultRowOf (s.job_results.length + 1) j, by simp, rfl, rfl, rfl, rfl, rfl, rfl,
    rfl, rfl, rfl, rfl, rfl⟩, ?_, ?_, ?_⟩
  · obtain ⟨r, hr, hid⟩ := hrow
    exact ⟨markDone j r, List.mem_map.2 ⟨r, hr, rfl⟩, by rw [markDone_id]; exact hid⟩
  · intro r hr hid
    obtain ⟨r0, _, rfl⟩ := List.mem_map.1 hr
    have hid0 : r0.id = j.Id := by rw [← markDone_id j r0]; exact hid
    simp [markDone, hid0]
  · intro t _
    refine ⟨?_, ?_⟩
    · intro sec nsec mono startNano hclock ht
      rw [ht]
      exact time.Now_UnixMicro sec nsec mono startNano hclock
    · intro v hv ht
      rw [ht]
      exact time.UnixMicro_roundtrip v hv

/-- C2 in the setting of `writeDone_test.go`: one seeded job with id 1, a handle for it
whose three instants are the same value of `time.Now()`, and no failing step. The three
instants are stored as 1793645252452302. -/
theorem WriteDone_records_witness :
    ((∃ x ∈ [resultRowOf 1 (examples.makeJobStruct examples.nowReading)],
      x.job_id = 1 ∧
      x.cron_exp_string = "* * * * *" ∧
      x.endpoint = "/" ∧
      x.httpmethod = "GET" ∧
      x.max_retries = 1 ∧
      x.last_message = some "OK" ∧
      x.last_status_code = 200 ∧
      x.claimed_by = "application1" ∧
      x.execution_time = examples.nowReading.UnixMicro ∧
      x.should_execute_at = examples.nowReading.UnixMicro ∧
      x.last_response_at = examples.nowReading.UnixMicro) ∧
    (∃ r ∈ examples.seededStore.jobs.map (markDone (examples.makeJobStruct examples.nowReading)),
      r.id = 1) ∧
    (∀ r ∈ examples.seededStore.jobs.map (markDone (examples.makeJobStruct examples.nowReading)),
      r.id = 1 →
      r.last_execution = some examples.nowReading.UnixMicro ∧
      r.should_execute_at = some examples.nowReading.UnixMicro ∧
      r.last_response_at = some examples.nowReading.UnixMicro ∧
      r.last_message = some "OK" ∧
      r.last_status_code = some 200)) ∧
    examples.nowReading.UnixMicro = 1793645252452302 := by
  have hw := WriteDone_records
    { beginFails := false, insertFails := false, updateFails := false, commitFails := false }
    examples.seededStore
    { jobs := examples.seededStore.jobs.map (markDone (examples.makeJobStruct examples.nowReading))
      job_results := [resultRowOf 1 (examples.makeJobStruct examples.nowReading)] }
    (examples.makeJobStruct examples.nowReading)
    rfl ⟨examples.seedRow 1 "claimed" (some "application1"), List.mem_singleton.2 rfl, rfl⟩
  refine ⟨⟨hw.1, hw.2.1, hw.2.2.1⟩, ?_⟩
  have hnow := (hw.2.2.2 examples.nowReading (List.mem_cons_self _ _)).1
    1793645252 452302123 987654321 1000 (by unfold time.IsClockReading; decide) rfl
  rw [hnow]
  norm_num

end storage
